import Mathlib

/-!
Verification of the incident-timeline extraction and normalization pipeline
of the `augur` repository (`src/analyzer.py` and `app.py`), against its
natural-language specification.

The Python code is shallowly embedded: text is `List Char`, the concrete
regular expressions of the source are translated into executable matching
functions with the exact backtracking/priority semantics of Python `re`,
`datetime.strptime` validation is translated into explicit field range
checks, and `json.loads` is translated into an executable JSON parser.
All definitions are computable so that theorems can be evaluated on
concrete inputs.
-/

namespace Augur

/-- Text is modelled as a list of characters. -/
abbrev Text := List Char

/-- Coerce a Lean string literal to `Text`. -/
def txt (s : String) : Text := s.data

/-- Python whitespace for `str.strip()` and the regex class `\s`
(ASCII fragment): space, tab, newline, carriage return, form feed,
vertical tab. -/
def isWS (c : Char) : Bool :=
  c = ' ' || c = '\t' || c = '\n' || c = '\x0d' || c = '\x0c' || c = '\x0b'

/-- ASCII digit test: the regex classes `\d` / `[0-9]`. -/
def isDigitC (c : Char) : Bool := '0' ≤ c && c ≤ '9'

/-- Python `str.strip()` / the regex group trim of `\s*(.*?)\s*`:
remove leading and trailing whitespace. -/
def strip (s : Text) : Text :=
  ((s.dropWhile isWS).reverse.dropWhile isWS).reverse

/-- `pat` occurs in `s` at position `i` (as a contiguous substring). -/
def matchAt (pat s : Text) (i : Nat) : Bool := pat.isPrefixOf (s.drop i)

/-- Index of the leftmost occurrence of `pat` in `s`
(the anchor search underlying `re.search`/`re.sub` for literal parts). -/
def findFirst (pat : Text) : Text → Option Nat
  | [] => if pat.isEmpty then some 0 else none
  | s@(_ :: t) =>
    if pat.isPrefixOf s then some 0 else (findFirst pat t).map (· + 1)

/-- All occurrence positions of `pat` in `s`. -/
def occList (pat s : Text) : List Nat :=
  (List.range (s.length + 1)).filter (fun i => matchAt pat s i)

theorem matchAt_zero {pat s : Text} : matchAt pat s 0 = pat.isPrefixOf s := by
  simp [matchAt]

theorem findFirst_eq_none {pat : Text} (hp : pat ≠ []) :
    ∀ {s : Text}, (∀ i, matchAt pat s i = false) → findFirst pat s = none := by
  intro s
  induction s with
  | nil =>
    intro _
    simp [findFirst, List.isEmpty_iff, hp]
  | cons c t ih =>
    intro h
    have h0 := h 0
    rw [matchAt_zero] at h0
    have ht : ∀ i, matchAt pat t i = false := by
      intro i
      have := h (i + 1)
      simpa [matchAt, List.drop_succ_cons] using this
    simp [findFirst, h0, ih ht]

theorem findFirst_eq_some_of_unique {pat : Text} (hp : pat ≠ []) :
    ∀ {s : Text} {k : Nat}, matchAt pat s k = true →
      (∀ i, matchAt pat s i = true → i = k) → findFirst pat s = some k := by
  intro s
  induction s with
  | nil =>
    intro k hk _
    exfalso
    have : pat.isPrefixOf ([] : Text) = true := by
      simpa [matchAt, List.drop_nil] using hk
    rcases List.isPrefixOf_iff_prefix.mp this with h
    exact hp (List.prefix_nil.mp h)
  | cons c t ih =>
    intro k hk huniq
    by_cases h0 : pat.isPrefixOf (c :: t) = true
    · have : 0 = k := huniq 0 (by simpa [matchAt_zero] using h0)
      simp [findFirst, h0, ← this]
    · have hk0 : k ≠ 0 := by
        intro hk0
        rw [hk0, matchAt_zero] at hk
        exact h0 hk
      obtain ⟨k', rfl⟩ := Nat.exists_eq_succ_of_ne_zero hk0
      have hk' : matchAt pat t k' = true := by
        simpa [matchAt, List.drop_succ_cons] using hk
      have huniq' : ∀ i, matchAt pat t i = true → i = k' := by
        intro i hi
        have : matchAt pat (c :: t) (i + 1) = true := by
          simpa [matchAt, List.drop_succ_cons] using hi
        have := huniq (i + 1) this
        omega
      simp [findFirst, h0, ih hk' huniq']

theorem matchAt_append_right {pat b : Text} (a : Text) {j : Nat}
    (h : matchAt pat b j = true) : matchAt pat (a ++ b) (a.length + j) = true := by
  unfold matchAt at *
  rwa [List.drop_append]

theorem matchAt_append_right_iff {pat b : Text} (a : Text) (j : Nat) :
    matchAt pat (a ++ b) (a.length + j) = matchAt pat b j := by
  unfold matchAt
  rw [List.drop_append]

theorem length_le_of_matchAt {pat s : Text} {i : Nat} (hp : pat ≠ [])
    (h : matchAt pat s i = true) : i ≤ s.length := by
  by_contra hlt
  have : s.drop i = [] := List.drop_eq_nil_of_le (by omega)
  rw [matchAt, this] at h
  have := List.isPrefixOf_iff_prefix.mp h
  exact hp (List.prefix_nil.mp this)

theorem occList_spec {pat s : Text} {i : Nat} (hp : pat ≠ []) :
    i ∈ occList pat s ↔ matchAt pat s i = true := by
  unfold occList
  rw [List.mem_filter, List.mem_range]
  constructor
  · rintro ⟨_, h⟩; exact h
  · intro h
    exact ⟨by have := length_le_of_matchAt hp h; omega, h⟩

theorem occList_singleton {pat s : Text} {k : Nat} (hp : pat ≠ [])
    (h : occList pat s = [k]) :
    matchAt pat s k = true ∧ ∀ i, matchAt pat s i = true → i = k := by
  constructor
  · have : k ∈ occList pat s := by rw [h]; exact List.mem_singleton.mpr rfl
    exact (occList_spec hp).mp this
  · intro i hi
    have : i ∈ occList pat s := (occList_spec hp).mpr hi
    rw [h] at this
    exact List.mem_singleton.mp this

theorem occList_nil {pat s : Text} (hp : pat ≠ []) (h : occList pat s = []) :
    ∀ i, matchAt pat s i = false := by
  intro i
  by_contra hcon
  have hi : matchAt pat s i = true := by
    cases hm : matchAt pat s i
    · exact absurd hm hcon
    · rfl
  have : i ∈ occList pat s := (occList_spec hp).mpr hi
  rw [h] at this
  exact absurd this (List.not_mem_nil i)

/-- The span of the leftmost `open … close` sentinel pair: the text before
the opening marker, the raw text between the markers, and the text after the
closing marker.  This is the anchor structure of the Python patterns
`OPEN\s*(.*?)\s*CLOSE` used with `re.DOTALL`: the match begins at the
leftmost occurrence of `OPEN` that is followed (at or after the end of
`OPEN`) by an occurrence of `CLOSE`, and ends at the first such `CLOSE`. -/
def findPairSpan (op cl s : Text) : Option (Text × Text × Text) :=
  match findFirst op s with
  | none => none
  | some o =>
    let s2 := s.drop (o + op.length)
    match findFirst cl s2 with
    | none => none
    | some c => some (s.take o, s2.take c, s2.drop (c + cl.length))

/-- `re.search(OPEN + r"\s*(.*?)\s*" + CLOSE, s, re.DOTALL)` returning the
captured group.  Because `CLOSE` starts with a non-whitespace character, the
greedy `\s*`s and the lazy group make the captured text exactly the text
between the markers with surrounding whitespace removed. -/
def searchPair (op cl s : Text) : Option Text :=
  (findPairSpan op cl s).map (fun x => strip x.2.1)

/-- `re.sub(OPEN + r"\s*.*?\s*" + CLOSE, "", s, flags=re.DOTALL)`: remove
every (leftmost-first, non-overlapping) marker pair span, continuing the
scan after each removed span.  The length guard is always true when both
markers are nonempty (every removed span contains them); it only serves to
make the recursion structurally decreasing. -/
def subPairAux (op cl : Text) : Nat → Text → Text
  | 0, s => s
  | fuel + 1, s =>
    match findPairSpan op cl s with
    | none => s
    | some (a, _, b) => a ++ subPairAux op cl fuel b

def subPair (op cl s : Text) : Text := subPairAux op cl (s.length + 1) s

theorem findFirst_of_unique_occ {pat s : Text} {k : Nat} (hp : pat ≠ [])
    (h : occList pat s = [k]) : findFirst pat s = some k := by
  obtain ⟨hk, huniq⟩ := occList_singleton hp h
  exact findFirst_eq_some_of_unique hp hk huniq

theorem findFirst_of_no_occ {pat s : Text} (hp : pat ≠ [])
    (h : occList pat s = []) : findFirst pat s = none :=
  findFirst_eq_none hp (occList_nil hp h)

theorem findPairSpan_none_of_no_open {op cl s : Text} (hp : op ≠ [])
    (h : occList op s = []) : findPairSpan op cl s = none := by
  unfold findPairSpan
  rw [findFirst_of_no_occ hp h]

theorem subPairAux_of_no_open {op cl s : Text} (fuel : Nat) (hp : op ≠ [])
    (h : occList op s = []) : subPairAux op cl fuel s = s := by
  cases fuel with
  | zero => rfl
  | succ n =>
    unfold subPairAux
    rw [findPairSpan_none_of_no_open hp h]

theorem subPair_of_no_open {op cl s : Text} (hp : op ≠ [])
    (h : occList op s = []) : subPair op cl s = s :=
  subPairAux_of_no_open _ hp h

theorem searchPair_none_of_no_open {op cl s : Text} (hp : op ≠ [])
    (h : occList op s = []) : searchPair op cl s = none := by
  unfold searchPair
  rw [findPairSpan_none_of_no_open hp h]
  rfl

theorem matchAt_self_append (pat rest : Text) :
    matchAt pat (pat ++ rest) 0 = true := by
  rw [matchAt_zero]
  exact List.isPrefixOf_iff_prefix.mpr (List.prefix_append pat rest)

theorem findPairSpan_structured {op cl : Text} (a c b : Text)
    (hop : op ≠ []) (hcl : cl ≠ [])
    (ho : occList op (a ++ op ++ c ++ cl ++ b) = [a.length])
    (hc : occList cl (a ++ op ++ c ++ cl ++ b) =
      [a.length + op.length + c.length]) :
    findPairSpan op cl (a ++ op ++ c ++ cl ++ b) = some (a, c, b) := by
  have hassoc : a ++ op ++ c ++ cl ++ b = a ++ (op ++ (c ++ (cl ++ b))) := by
    simp [List.append_assoc]
  have hfo : findFirst op (a ++ op ++ c ++ cl ++ b) = some a.length :=
    findFirst_of_unique_occ hop ho
  have hdrop : (a ++ op ++ c ++ cl ++ b).drop (a.length + op.length) =
      c ++ (cl ++ b) := by
    rw [hassoc, List.drop_append_eq_append_drop]
    rw [List.drop_eq_nil_of_le (by omega)]
    rw [show a.length + op.length - a.length = op.length by omega]
    rw [List.nil_append, List.drop_append_eq_append_drop,
      List.drop_eq_nil_of_le (le_refl op.length), Nat.sub_self, List.drop_zero,
      List.nil_append]
  have hfc : findFirst cl (c ++ (cl ++ b)) = some c.length := by
    apply findFirst_eq_some_of_unique hcl
    · have := matchAt_self_append cl b
      calc matchAt cl (c ++ (cl ++ b)) c.length
          = matchAt cl (c ++ (cl ++ b)) (c.length + 0) := by rw [Nat.add_zero]
        _ = matchAt cl (cl ++ b) 0 := matchAt_append_right_iff c 0
        _ = true := this
    · intro i hi
      have hi' : matchAt cl (a ++ op ++ c ++ cl ++ b)
          ((a ++ op).length + i) = true := by
        have : a ++ op ++ c ++ cl ++ b = (a ++ op) ++ (c ++ (cl ++ b)) := by
          simp [List.append_assoc]
        rw [this, matchAt_append_right_iff]
        exact hi
      have := (occList_singleton hcl hc).2 _ hi'
      simp only [List.length_append] at this
      omega
  have h1 : (a ++ op ++ c ++ cl ++ b).take a.length = a := by
    rw [hassoc]; exact List.take_left a _
  have h2 : (c ++ (cl ++ b)).take c.length = c := List.take_left c _
  have h3 : (c ++ (cl ++ b)).drop (c.length + cl.length) = b := by
    have : c ++ (cl ++ b) = (c ++ cl) ++ b := by simp [List.append_assoc]
    rw [this, ← List.length_append c cl]
    exact List.drop_left (c ++ cl) b
  unfold findPairSpan
  rw [hfo]
  simp only [hdrop, hfc, h1, h2, h3]

theorem no_open_in_tail {op : Text} (a c cl b : Text) (hop : op ≠ [])
    (ho : occList op (a ++ op ++ c ++ cl ++ b) = [a.length]) :
    occList op b = [] := by
  by_contra hne
  obtain ⟨j, hj⟩ : ∃ j, matchAt op b j = true := by
    cases hb : occList op b with
    | nil => exact absurd hb hne
    | cons x xs =>
      refine ⟨x, ?_⟩
      apply (occList_spec hop).mp
      rw [hb]; exact List.mem_cons_self x xs
  have hshift : matchAt op (a ++ op ++ c ++ cl ++ b)
      ((a ++ op ++ c ++ cl).length + j) = true := by
    have : a ++ op ++ c ++ cl ++ b = (a ++ op ++ c ++ cl) ++ b := rfl
    rw [this, matchAt_append_right_iff]
    exact hj
  have := (occList_singleton hop ho).2 _ hshift
  simp only [List.length_append] at this
  have : op.length = 0 := by omega
  exact hop (List.eq_nil_of_length_eq_zero this)

theorem subPair_structured {op cl : Text} (a c b : Text)
    (hop : op ≠ []) (hcl : cl ≠ [])
    (ho : occList op (a ++ op ++ c ++ cl ++ b) = [a.length])
    (hc : occList cl (a ++ op ++ c ++ cl ++ b) =
      [a.length + op.length + c.length]) :
    subPair op cl (a ++ op ++ c ++ cl ++ b) = a ++ b := by
  unfold subPair subPairAux
  rw [findPairSpan_structured a c b hop hcl ho hc]
  dsimp only
  rw [subPairAux_of_no_open _ hop (no_open_in_tail a c cl b hop ho)]

theorem searchPair_structured {op cl : Text} (a c b : Text)
    (hop : op ≠ []) (hcl : cl ≠ [])
    (ho : occList op (a ++ op ++ c ++ cl ++ b) = [a.length])
    (hc : occList cl (a ++ op ++ c ++ cl ++ b) =
      [a.length + op.length + c.length]) :
    searchPair op cl (a ++ op ++ c ++ cl ++ b) = some (strip c) := by
  unfold searchPair
  rw [findPairSpan_structured a c b hop hcl ho hc]
  rfl

/-! ## Datetime model (`datetime.strptime` / `datetime` arithmetic) -/

/-- A naive (timezone-free) Python `datetime` with whole seconds, as produced
by `datetime.strptime` with the formats used in `app.py`. -/
structure DateTime where
  year : Nat
  month : Nat
  day : Nat
  hour : Nat
  minute : Nat
  second : Nat
deriving DecidableEq, Repr

/-- Gregorian leap year rule used by `datetime`. -/
def isLeap (y : Nat) : Bool := y % 4 = 0 && (y % 100 ≠ 0 || y % 400 = 0)

def daysInMonth (y m : Nat) : Nat :=
  if m = 2 then (if isLeap y then 29 else 28)
  else if m = 4 || m = 6 || m = 9 || m = 11 then 30
  else 31

/-- Validity checks performed by `datetime.strptime` with formats
`%Y-%m-%d %H:%M:%S` / `%Y-%m-%d %H:%M` (the `datetime` constructor rejects
year 0, out-of-range months/days/hours/minutes/seconds; `%Y` reads at most
four digits). -/
def validDT (d : DateTime) : Bool :=
  1 ≤ d.year && d.year ≤ 9999 && 1 ≤ d.month && d.month ≤ 12 &&
  1 ≤ d.day && d.day ≤ daysInMonth d.year d.month &&
  d.hour ≤ 23 && d.minute ≤ 59 && d.second ≤ 59

/-- Days since 1970-01-01 of a civil date (Howard Hinnant's
`days_from_civil`, with C-style truncating division, which `Int./` is). -/
def daysFromCivil (y m d : Int) : Int :=
  let y := if m ≤ 2 then y - 1 else y
  let era := (if 0 ≤ y then y else y - 399) / 400
  let yoe := y - era * 400
  let mp := (m + 9) % 12
  let doy := (153 * mp + 2) / 5 + d - 1
  let doe := yoe * 365 + yoe / 4 - yoe / 100 + doy
  era * 146097 + doe - 719468

/-- Inverse of `daysFromCivil` (Hinnant's `civil_from_days`). -/
def civilFromDays (z : Int) : Int × Int × Int :=
  let z := z + 719468
  let era := (if 0 ≤ z then z else z - 146096) / 146097
  let doe := z - era * 146097
  let yoe := (doe - doe / 1460 + doe / 36524 - doe / 146096) / 365
  let y := yoe + era * 400
  let doy := doe - (365 * yoe + yoe / 4 - yoe / 100)
  let mp := (5 * doy + 2) / 153
  let d := doy - (153 * mp + 2) / 5 + 1
  let m := mp + (if mp < 10 then 3 else -9)
  (y + (if m ≤ 2 then 1 else 0), m, d)

/-- Linearization of a datetime to seconds (what `(a - b).total_seconds()`
computes on the difference of two datetimes). -/
def toSecs (dt : DateTime) : Int :=
  daysFromCivil dt.year dt.month dt.day * 86400 +
    dt.hour * 3600 + dt.minute * 60 + dt.second

/-! ## Character-level matching combinators for the source's regexes -/

/-- Consume one expected character. -/
def chompChar (ch : Char) : Text → Option Text
  | c :: t => if c = ch then some t else none
  | [] => none

/-- Consume exactly `n` ASCII digits (`\d{n}`), returning them and the rest. -/
def chompDigits : Nat → Text → Option (Text × Text)
  | 0, s => some ([], s)
  | n + 1, c :: t =>
    if isDigitC c then (chompDigits n t).map (fun x => (c :: x.1, x.2)) else none
  | _ + 1, [] => none

/-- Numeric value of a digit string (as read by `strptime`). -/
def digitsToNat (s : Text) : Nat :=
  s.foldl (fun acc c => 10 * acc + (c.toNat - 48)) 0

/-- The greedy optional seconds group `(?::\d{2})?`: consume `:` and two
digits if present. -/
def trySec (s : Text) : Option (Text × Text) :=
  (chompChar ':' s).bind fun s1 =>
  (chompDigits 2 s1).map fun p => (':' :: p.1, p.2)

/-- Fields captured by the timestamp shape
`\d{4}-\d{2}-\d{2}<sep>\d{2}:\d{2}(?::\d{2})?`. -/
structure TSRaw where
  y : Nat
  mo : Nat
  d : Nat
  h : Nat
  mi : Nat
  sec : Option Nat
deriving DecidableEq, Repr

/-- Anchored match of the timestamp shape (the capture group of
`re.match(r"(\d{4}-\d{2}-\d{2}<sep>\d{2}:\d{2}(?::\d{2})?)", s)`), where
`sepOk` is the separator class (`' '` in `parse_time`, `\s` in
`parse_start_time`).  Returns the fields, the matched text, and the rest of
the string after the match. -/
def chompSep (sepOk : Char → Bool) : Text → Option (Char × Text)
  | c :: t => if sepOk c then some (c, t) else none
  | [] => none

def chompTS (sepOk : Char → Bool) (s : Text) : Option (TSRaw × Text × Text) :=
  (chompDigits 4 s).bind fun (dy, s1) =>
  (chompChar '-' s1).bind fun s2 =>
  (chompDigits 2 s2).bind fun (dmo, s3) =>
  (chompChar '-' s3).bind fun s4 =>
  (chompDigits 2 s4).bind fun (dd, s5) =>
  (chompSep sepOk s5).bind fun (sep, s6) =>
  (chompDigits 2 s6).bind fun (dh, s7) =>
  (chompChar ':' s7).bind fun s8 =>
  (chompDigits 2 s8).bind fun (dmi, s9) =>
  match trySec s9 with
  | some (st, s10) =>
    some (⟨digitsToNat dy, digitsToNat dmo, digitsToNat dd,
           digitsToNat dh, digitsToNat dmi, some (digitsToNat (st.drop 1))⟩,
          dy ++ '-' :: dmo ++ '-' :: dd ++ sep :: dh ++ ':' :: dmi ++ st, s10)
  | none =>
    some (⟨digitsToNat dy, digitsToNat dmo, digitsToNat dd,
           digitsToNat dh, digitsToNat dmi, none⟩,
          dy ++ '-' :: dmo ++ '-' :: dd ++ sep :: dh ++ ':' :: dmi, s9)

/-- `datetime.strptime` applied to the matched timestamp text, trying
`%Y-%m-%d %H:%M:%S` then `%Y-%m-%d %H:%M` (`app.py` `parse_time` /
`parse_start_time`).  When the matched text carries seconds only the first
format can succeed, otherwise only the second; in both cases success is
exactly field-range validity, and an absent seconds field defaults to 0. -/
def strptimeTS (r : TSRaw) : Option DateTime :=
  let dt : DateTime := ⟨r.y, r.mo, r.d, r.h, r.mi, r.sec.getD 0⟩
  if validDT dt then some dt else none

/-- `app.py` `parse_time` (lines 481-491): anchored timestamp match with a
literal space separator, then `strptime`; `None` when either step fails. -/
def parse_time (s : Text) : Option DateTime :=
  match chompTS (fun c => c = ' ') s with
  | none => none
  | some (r, _, _) => strptimeTS r

/-- `app.py` `parse_start_time` (lines 333-344, in
`render_horizontal_timeline`): same as `parse_time` but the separator class
is `\s`. -/
def parse_start_time (s : Text) : Option DateTime :=
  match chompTS isWS s with
  | none => none
  | some (r, _, _) => strptimeTS r

/-- The time-of-day shape `\d{2}:\d{2}(?::\d{2})?` (greedy optional
seconds), returning matched text and rest. -/
def chompTOD (s : Text) : Option (Text × Text) :=
  (chompDigits 2 s).bind fun (dh, s1) =>
  (chompChar ':' s1).bind fun s2 =>
  (chompDigits 2 s2).bind fun (dmi, s3) =>
  match trySec s3 with
  | some (st, s4) => some (dh ++ ':' :: dmi ++ st, s4)
  | none => some (dh ++ ':' :: dmi, s3)

/-- The full-match check `re.match(r"^\d{2}:\d{2}(?::\d{2})?$", end_str)`
used in `render_timeline_with_events` to detect a bare time-of-day. -/
def todFull (s : Text) : Bool :=
  match chompTOD s with
  | some (_, []) => true
  | _ => false

/-- The anchored range match of `render_timeline_with_events` (line 499):
`(\d{4}-\d{2}-\d{2} \d{2}:\d{2}(?::\d{2})?)\s*-\s*`
`(\d{2}:\d{2}(?::\d{2})?|\d{4}-\d{2}-\d{2} \d{2}:\d{2}(?::\d{2})?)`,
returning the two captured groups (start string, end string).  The
alternation tries the bare time-of-day first, as Python does. -/
def rangeMatchApp (s : Text) : Option (Text × Text) :=
  (chompTS (fun c => c = ' ') s).bind fun (_, t1, s1) =>
  (chompChar '-' (s1.dropWhile isWS)).bind fun s3 =>
  let s4 := s3.dropWhile isWS
  match chompTOD s4 with
  | some (t2, _) => some (t1, t2)
  | none =>
    match chompTS (fun c => c = ' ') s4 with
    | some (_, t2, _) => some (t1, t2)
    | none => none

/-- `start_str.split()[0]`: the date part of a matched timestamp string. -/
def datePart (s : Text) : Text := s.takeWhile (fun c => ¬ isWS c)

/-! ## `analyzer.py` `_extract_timeline` (lines 94-122) -/

/-- A timeline entry `{"time": ..., "event": ...}`. -/
structure TimelineEvent where
  time : Text
  event : Text
deriving DecidableEq, Repr

/-- The ordered backtracking candidates for the optional range group
`(?:-[0-9]{2}:[0-9]{2}(?::[0-9]{2})?)?` of the analyzer's event-line
pattern: with trailing seconds first, then without, then the empty
alternative (group not taken).  Each candidate is (consumed text, rest). -/
def rangeCands (s : Text) : List (Text × Text) :=
  match chompChar '-' s with
  | none => [([], s)]
  | some s1 =>
    match chompDigits 2 s1 with
    | none => [([], s)]
    | some (dh, s2) =>
    match chompChar ':' s2 with
    | none => [([], s)]
    | some s3 =>
    match chompDigits 2 s3 with
    | none => [([], s)]
    | some (dmi, s4) =>
      let base : Text := '-' :: dh ++ ':' :: dmi
      (match trySec s4 with
       | some (st, r) => [(base ++ st, r)]
       | none => []) ++ [(base, s4), ([], s)]

/-- Backtracking candidates for the greedy optional seconds group
`(?::[0-9]{2})?`: with, then without. -/
def secCands (s : Text) : List (Text × Text) :=
  (match trySec s with
   | some (st, r) => [(st, r)]
   | none => []) ++ [([], s)]

/-- The fixed prefix `[0-9]{4}-[0-9]{2}-[0-9]{2} [0-9]{2}:[0-9]{2}` of the
analyzer's event-line pattern (no backtracking inside). -/
def chompDateHM (s : Text) : Option (Text × Text) :=
  (chompDigits 4 s).bind fun (dy, s1) =>
  (chompChar '-' s1).bind fun s2 =>
  (chompDigits 2 s2).bind fun (dmo, s3) =>
  (chompChar '-' s3).bind fun s4 =>
  (chompDigits 2 s4).bind fun (dd, s5) =>
  (chompChar ' ' s5).bind fun s6 =>
  (chompDigits 2 s6).bind fun (dh, s7) =>
  (chompChar ':' s7).bind fun s8 =>
  (chompDigits 2 s8).map fun (dmi, s9) =>
    (dy ++ '-' :: dmo ++ '-' :: dd ++ ' ' :: dh ++ ':' :: dmi, s9)

/-- One attempt of the analyzer's event-line pattern
`^([0-9]{4}-[0-9]{2}-[0-9]{2} [0-9]{2}:[0-9]{2}(?::[0-9]{2})?`
`(?:-[0-9]{2}:[0-9]{2}(?::[0-9]{2})?)?):\s*(.*)$` at a line start, with
Python's backtracking priority (greedy optional groups, first combination
whose continuation `:` matches wins).  After the colon, `\s*` greedily
skips whitespace (including newlines — the pattern is compiled without
`re.DOTALL`, but `\s` still crosses lines) and `(.*)$` captures up to the
next newline or the end.  Returns (group 1, group 2, rest after match). -/
def matchEventLine (s : Text) : Option (Text × Text × Text) :=
  match chompDateHM s with
  | none => none
  | some (ts, s1) =>
    let cands := (secCands s1).flatMap
      (fun p => (rangeCands p.2).map (fun q => (p.1 ++ q.1, q.2)))
    match cands.findSome?
        (fun p => (chompChar ':' p.2).map (fun r => (p.1, r))) with
    | none => none
    | some (ext, s2) =>
      let afterWS := s2.dropWhile isWS
      let d := afterWS.takeWhile (fun c => c ≠ '\n')
      some (ts ++ ext, d, afterWS.drop d.length)

theorem chompChar_length {ch : Char} {s t : Text}
    (h : chompChar ch s = some t) : t.length + 1 = s.length := by
  cases s with
  | nil => simp [chompChar] at h
  | cons c r =>
    by_cases hc : c = ch
    · simp [chompChar, hc] at h
      simp [← h]
    · simp [chompChar, hc] at h

theorem chompDigits_length :
    ∀ {n : Nat} {s x y : Text}, chompDigits n s = some (x, y) →
      y.length + n = s.length := by
  intro n
  induction n with
  | zero =>
    intro s x y h
    simp [chompDigits] at h
    simp [h.2]
  | succ m ih =>
    intro s x y h
    cases s with
    | nil => simp [chompDigits] at h
    | cons c r =>
      by_cases hd : isDigitC c = true
      · simp only [chompDigits, hd, if_pos, Option.map_eq_some'] at h
        obtain ⟨⟨x', y'⟩, hrec, hxy⟩ := h
        obtain ⟨hx, hy⟩ := Prod.mk.injEq .. ▸ hxy
        have := ih hrec
        subst hy
        simp only [List.length_cons]
        omega
      · simp [chompDigits, hd] at h

theorem trySec_length {s st r : Text} (h : trySec s = some (st, r)) :
    r.length + 3 = s.length := by
  unfold trySec at h
  simp only [Option.bind_eq_some, Option.map_eq_some'] at h
  obtain ⟨s1, h1, ⟨d, r'⟩, h2, hpr⟩ := h
  have e1 := chompChar_length h1
  have e2 := chompDigits_length h2
  have : r' = r := congrArg Prod.snd hpr
  subst this
  omega

theorem chompDateHM_length {s ts s1 : Text}
    (h : chompDateHM s = some (ts, s1)) : s1.length + 16 = s.length := by
  unfold chompDateHM at h
  simp only [Option.bind_eq_some, Option.map_eq_some'] at h
  obtain ⟨⟨dy, r1⟩, c1, h⟩ := h
  obtain ⟨r2, c2, h⟩ := h
  obtain ⟨⟨dmo, r3⟩, c3, h⟩ := h
  obtain ⟨r4, c4, h⟩ := h
  obtain ⟨⟨dd, r5⟩, c5, h⟩ := h
  obtain ⟨r6, c6, h⟩ := h
  obtain ⟨⟨dh, r7⟩, c7, h⟩ := h
  obtain ⟨r8, c8, h⟩ := h
  obtain ⟨⟨dmi, r9⟩, c9, hpr⟩ := h
  dsimp only at c2 c3 c4 c5 c6 c7 c8 c9 hpr
  have e1 := chompDigits_length c1
  have e2 := chompChar_length c2
  have e3 := chompDigits_length c3
  have e4 := chompChar_length c4
  have e5 := chompDigits_length c5
  have e6 := chompChar_length c6
  have e7 := chompDigits_length c7
  have e8 := chompChar_length c8
  have e9 := chompDigits_length c9
  have : r9 = s1 := congrArg Prod.snd hpr
  subst this
  omega

theorem secCands_length {s : Text} {p : Text × Text} (h : p ∈ secCands s) :
    p.2.length ≤ s.length := by
  unfold secCands at h
  rcases ht : trySec s with _ | ⟨st, r⟩
  · rw [ht] at h
    simp at h
    simp [h]
  · rw [ht] at h
    have := trySec_length ht
    simp at h
    rcases h with h | h <;> simp [h] <;> omega

theorem rangeCands_length {s : Text} {p : Text × Text} (h : p ∈ rangeCands s) :
    p.2.length ≤ s.length := by
  unfold rangeCands at h
  rcases h1 : chompChar '-' s with _ | s1
  · rw [h1] at h; simp at h; simp [h]
  · rw [h1] at h
    dsimp only at h
    have e1 := chompChar_length h1
    rcases h2 : chompDigits 2 s1 with _ | ⟨dh, s2⟩
    · rw [h2] at h; simp at h; simp [h]
    · rw [h2] at h
      dsimp only at h
      have e2 := chompDigits_length h2
      rcases h3 : chompChar ':' s2 with _ | s3
      · rw [h3] at h; simp at h; simp [h]
      · rw [h3] at h
        dsimp only at h
        have e3 := chompChar_length h3
        rcases h4 : chompDigits 2 s3 with _ | ⟨dmi, s4⟩
        · rw [h4] at h; simp at h; simp [h]
        · rw [h4] at h
          dsimp only at h
          have e4 := chompDigits_length h4
          rcases h5 : trySec s4 with _ | ⟨st, r⟩
          · rw [h5] at h
            simp at h
            rcases h with h | h <;> simp [h] <;> omega
          · rw [h5] at h
            have e5 := trySec_length h5
            simp at h
            rcases h with h | h | h <;> simp [h] <;> omega

theorem matchEventLine_rest_length {s t d rest : Text}
    (h : matchEventLine s = some (t, d, rest)) : rest.length < s.length := by
  unfold matchEventLine at h
  rcases h1 : chompDateHM s with _ | ⟨ts, s1⟩
  · rw [h1] at h; simp at h
  · rw [h1] at h
    have e1 := chompDateHM_length h1
    dsimp only at h
    rcases h2 : ((secCands s1).flatMap
        (fun p => (rangeCands p.2).map (fun q => (p.1 ++ q.1, q.2)))).findSome?
        (fun p => (chompChar ':' p.2).map (fun r => (p.1, r))) with _ | ⟨ext, s2⟩
    · rw [h2] at h; simp at h
    · rw [h2] at h
      obtain ⟨pp, hmem, hpp⟩ := List.exists_of_findSome?_eq_some h2
      simp only [Option.map_eq_some'] at hpp
      obtain ⟨r, hr, hpe⟩ := hpp
      have hre := chompChar_length hr
      simp only [List.mem_flatMap, List.mem_map] at hmem
      obtain ⟨psec, hpsec, q, hq, hqe⟩ := hmem
      have l1 := secCands_length hpsec
      have l2 := rangeCands_length hq
      have hq2 : pp.2 = q.2 := by rw [← hqe]
      have hre2 : r.length + 1 = q.2.length := by rw [← hq2]; exact hre
      have hr2 : r = s2 := congrArg Prod.snd hpe
      have hs2 : s2.length < s1.length := by
        rw [← hr2]
        omega
      simp only [Option.some.injEq, Prod.mk.injEq] at h
      have hrest : rest = (s2.dropWhile isWS).drop
          ((s2.dropWhile isWS).takeWhile (fun c => c ≠ '\n')).length := by
        exact (h.2.2).symm
      have hd1 : (s2.dropWhile isWS).length ≤ s2.length :=
        List.Sublist.length_le (List.dropWhile_sublist _)
      have hd2 : ((s2.dropWhile isWS).drop
          ((s2.dropWhile isWS).takeWhile (fun c => c ≠ '\n')).length).length ≤
          (s2.dropWhile isWS).length := by
        rw [List.length_drop]
        omega
      rw [hrest]
      omega

/-- Skip past the next newline (or to the end): the advance of the
`re.findall(..., re.MULTILINE)` scanner from a failed line or from a match
end (which sits just before a newline) to the next line start.  Positions in
the middle of a line can never match the `^`-anchored pattern, so the
scanner's per-character advance is equivalent to this per-line advance. -/
def dropThroughNL (s : Text) : Text := (s.dropWhile (fun c => c ≠ '\n')).drop 1

theorem dropThroughNL_length_le (s : Text) :
    (dropThroughNL s).length ≤ s.length := by
  unfold dropThroughNL
  have h1 : (s.dropWhile (fun c => c ≠ '\n')).length ≤ s.length :=
    List.Sublist.length_le (List.dropWhile_sublist _)
  have h2 := List.length_drop 1 (s.dropWhile (fun c => c ≠ '\n'))
  omega

theorem dropThroughNL_length_lt {s : Text} (h : s ≠ []) :
    (dropThroughNL s).length < s.length := by
  unfold dropThroughNL
  cases s with
  | nil => exact absurd rfl h
  | cons c t =>
    by_cases hc : c = '\n'
    · subst hc
      simp [List.dropWhile]
    · rw [List.dropWhile_cons_of_pos (by simp [hc])]
      have h1 : (t.dropWhile (fun c => c ≠ '\n')).length ≤ t.length :=
        List.Sublist.length_le (List.dropWhile_sublist _)
      have h2 := List.length_drop 1 (t.dropWhile (fun c => c ≠ '\n'))
      simp only [List.length_cons]
      omega

/-- `re.findall(eventLinePattern, timeline_text, re.MULTILINE)`: scan the
text, attempting the `^`-anchored event-line pattern at each line start,
collecting (group 1, group 2) pairs of non-overlapping matches in order and
resuming the scan after each match. -/
def findEventsAux : Nat → Text → List (Text × Text)
  | 0, _ => []
  | fuel + 1, s =>
    match matchEventLine s with
    | some (t, d, rest) => (t, d) :: findEventsAux fuel (dropThroughNL rest)
    | none =>
      match s with
      | [] => []
      | c :: t => findEventsAux fuel (dropThroughNL (c :: t))

def findEvents (s : Text) : List (Text × Text) := findEventsAux (s.length + 1) s

/-- The literal tail `" Timeline of Events:"` of the section pattern. -/
def sectionLit : Text := txt " Timeline of Events:"

/-- Portion of a whitespace run after its last newline (consumed by the
lazy group, not the header): `\s*\n` greedily ends at the last `\n` of the
maximal whitespace run. -/
def afterLastNL (ws : Text) : Text :=
  (ws.reverse.takeWhile (fun c => c ≠ '\n')).reverse

/-- One attempt of the section pattern
`2\\. Timeline of Events:\s*\n` at a given position.  In the source this
pattern is the raw string `r"2\\. Timeline of Events:\s*\n..."`, so the
regex is `2` followed by an *escaped literal backslash* (`\\`) followed by
`.` (any character, `re.DOTALL`) followed by the literal
`" Timeline of Events:"`, then whitespace that must contain a newline
(`\s*\n`, ending at the run's last newline).  Returns the text at which the
captured group starts. -/
def headerMatch : Text → Option Text
  | '2' :: '\\' :: _ :: rest =>
    if sectionLit.isPrefixOf rest then
      let r2 := rest.drop sectionLit.length
      let ws := r2.takeWhile isWS
      if ws.contains '\n' then
        some (afterLastNL ws ++ r2.drop ws.length)
      else none
    else none
  | _ => none

/-- The tail alternative `\n\d+\.\s` of the section pattern: a newline, a
nonempty digit run, a literal dot, one whitespace character. -/
def tailNumHeading (s : Text) : Bool :=
  match s with
  | '\n' :: r =>
    let ds := r.takeWhile isDigitC
    !ds.isEmpty &&
      (match r.drop ds.length with
       | '.' :: w :: _ => isWS w
       | _ => false)
  | _ => false

/-- The lazy group `(.*?)(?:\n\d+\.\s|$)`: collect characters until the
first position where `\n\d+\.\s` matches or where `$` matches (`$` without
`re.MULTILINE` matches at the end of the text or just before a final
newline). -/
def groupOf : Text → Text
  | [] => []
  | c :: t =>
    if tailNumHeading (c :: t) then []
    else if c = '\n' ∧ t = [] then []
    else c :: groupOf t

/-- `re.search` of the section pattern: try `headerMatch` at each position,
leftmost first; on success the captured group is `groupOf` of the text
after the header. -/
def findSection : Text → Option Text
  | [] => none
  | s@(_ :: t) =>
    match headerMatch s with
    | some afterHdr => some (groupOf afterHdr)
    | none => findSection t

/-- `analyzer.py` `_extract_timeline` (lines 94-122): locate the timeline
section with the section pattern; if absent return `[]`; otherwise run the
event-line `findall` on the captured section and build
`{"time": start, "event": desc.strip()}` entries. -/
def extract_timeline (report : Text) : List TimelineEvent :=
  match findSection report with
  | none => []
  | some sect => (findEvents sect).map (fun p => ⟨p.1, strip p.2⟩)

example : extract_timeline
    (txt "### 2. Timeline of Events:\n2024-01-15 14:05:00: auth-service high memory\n") = [] := by
  decide

example : extract_timeline
    (txt "2\\. Timeline of Events:\n2024-01-15 14:00:00-2024-01-15 15:00:00: overload") =
    [⟨txt "2024-01-15 14:00", txt "00-2024-01-15 15:00:00: overload"⟩] := by
  decide

example : extract_timeline
    (txt "2\\. Timeline of Events:\n2024-01-15 14:05:00: auth-service high memory\n") =
    [⟨txt "2024-01-15 14:05:00", txt "auth-service high memory"⟩] := by
  decide

example : extract_timeline
    (txt "2\\. Timeline of Events:\n2024-01-15 16:30-17:15: spike\nnot a line\n2024-01-15 18:00: done") =
    [⟨txt "2024-01-15 16:30-17:15", txt "spike"⟩, ⟨txt "2024-01-15 18:00", txt "done"⟩] := by
  decide

/-! ## `json.loads` model -/

/-- A parsed JSON value; numbers kept as their lexed text (Python float
truthiness only needs zero-ness, decided from the numeral text). -/
inductive JVal where
  | null
  | bool (b : Bool)
  | num (t : Text)
  | str (s : Text)
  | arr (xs : List JVal)
  | obj (kvs : List (Text × JVal))

/-- JSON whitespace (`json.decoder.WHITESPACE`): space, tab, newline,
carriage return. -/
def isJWS (c : Char) : Bool := c = ' ' || c = '\t' || c = '\n' || c = '\x0d'

def hexVal (c : Char) : Option Nat :=
  if isDigitC c then some (c.toNat - 48)
  else if 'a' ≤ c && c ≤ 'f' then some (c.toNat - 87)
  else if 'A' ≤ c && c ≤ 'F' then some (c.toNat - 55)
  else none

/-- Decode one string escape (after the backslash).  `\uXXXX` is mapped to
`Char.ofNat` of its value (surrogate handling approximated; parse success
is faithful). -/
def jsonEscape (e : Char) (r : Text) : Option (Char × Text) :=
  if e = '"' then some ('"', r)
  else if e = '\\' then some ('\\', r)
  else if e = '/' then some ('/', r)
  else if e = 'b' then some ('\x08', r)
  else if e = 'f' then some ('\x0c', r)
  else if e = 'n' then some ('\n', r)
  else if e = 'r' then some ('\x0d', r)
  else if e = 't' then some ('\t', r)
  else if e = 'u' then
    match r with
    | h1 :: h2 :: h3 :: h4 :: r2 =>
      match hexVal h1, hexVal h2, hexVal h3, hexVal h4 with
      | some a, some b, some c, some d =>
        some (Char.ofNat (((a * 16 + b) * 16 + c) * 16 + d), r2)
      | _, _, _, _ => none
    | _ => none
  else none

/-- JSON string body after the opening quote (strict mode: raw control
characters below 0x20 are rejected). -/
def parseJString : Nat → Text → Option (Text × Text)
  | 0, _ => none
  | fuel + 1, s =>
    match s with
    | '"' :: r => some ([], r)
    | '\\' :: e :: r =>
      match jsonEscape e r with
      | none => none
      | some (c, r2) =>
        match parseJString fuel r2 with
        | some (cs, r3) => some (c :: cs, r3)
        | none => none
    | c :: r =>
      if c.toNat < 32 then none
      else
        match parseJString fuel r with
        | some (cs, r2) => some (c :: cs, r2)
        | none => none
    | [] => none

/-- Optional fraction `(\.\d+)?` of the JSON number grammar. -/
def parseJFrac (s : Text) : Text × Text :=
  match s with
  | '.' :: r =>
    let ds := r.takeWhile isDigitC
    if ds.isEmpty then ([], s) else ('.' :: ds, r.drop ds.length)
  | _ => ([], s)

/-- Optional exponent `([eE][-+]?\d+)?` of the JSON number grammar. -/
def parseJExp (s : Text) : Text × Text :=
  match s with
  | c :: r =>
    if c = 'e' || c = 'E' then
      let (sgn, r1) : Text × Text :=
        match r with
        | '+' :: r2 => (['+'], r2)
        | '-' :: r2 => (['-'], r2)
        | _ => ([], r)
      let ds := r1.takeWhile isDigitC
      if ds.isEmpty then ([], s) else (c :: (sgn ++ ds), r1.drop ds.length)
    else ([], s)
  | [] => ([], s)

/-- JSON number lexer `(-?(?:0|[1-9]\d*))(\.\d+)?([eE][-+]?\d+)?`. -/
def parseJNum (s : Text) : Option (Text × Text) :=
  let (negT, s1) : Text × Text :=
    match s with
    | '-' :: r => (['-'], r)
    | _ => ([], s)
  match s1 with
  | c :: r =>
    if c = '0' then
      let (ft, r2) := parseJFrac r
      let (et, r3) := parseJExp r2
      some (negT ++ c :: (ft ++ et), r3)
    else if isDigitC c then
      let ds := r.takeWhile isDigitC
      let r1 := r.drop ds.length
      let (ft, r2) := parseJFrac r1
      let (et, r3) := parseJExp r2
      some (negT ++ c :: (ds ++ ft ++ et), r3)
    else none
  | [] => none

mutual

/-- Parse one JSON value at a whitespace-skipped position (the recursive
scanner of `json.loads`, including the non-strict constants `NaN`,
`Infinity`, `-Infinity` that Python accepts by default). -/
def parseJValue : Nat → Text → Option (JVal × Text)
  | 0, _ => none
  | fuel + 1, s =>
    if (txt "null").isPrefixOf s then some (.null, s.drop 4)
    else if (txt "true").isPrefixOf s then some (.bool true, s.drop 4)
    else if (txt "false").isPrefixOf s then some (.bool false, s.drop 5)
    else if (txt "NaN").isPrefixOf s then some (.num (txt "NaN"), s.drop 3)
    else if (txt "Infinity").isPrefixOf s then some (.num (txt "Infinity"), s.drop 8)
    else if (txt "-Infinity").isPrefixOf s then some (.num (txt "-Infinity"), s.drop 9)
    else
      match s with
      | '"' :: r =>
        match parseJString fuel r with
        | some (cs, r2) => some (.str cs, r2)
        | none => none
      | '[' :: r =>
        let r1 := r.dropWhile isJWS
        match r1 with
        | ']' :: r2 => some (.arr [], r2)
        | _ =>
          match parseArrItems fuel r1 with
          | some (xs, r2) => some (.arr xs, r2)
          | none => none
      | '\x7b' :: r =>
        let r1 := r.dropWhile isJWS
        match r1 with
        | '\x7d' :: r2 => some (.obj [], r2)
        | _ =>
          match parseObjItems fuel r1 with
          | some (kvs, r2) => some (.obj kvs, r2)
          | none => none
      | _ =>
        match parseJNum s with
        | some (t, r) => some (.num t, r)
        | none => none

/-- Comma-separated JSON array items up to `]`. -/
def parseArrItems : Nat → Text → Option (List JVal × Text)
  | 0, _ => none
  | fuel + 1, s =>
    match parseJValue fuel s with
    | none => none
    | some (v, r) =>
      let r1 := r.dropWhile isJWS
      match r1 with
      | ',' :: r2 =>
        match parseArrItems fuel (r2.dropWhile isJWS) with
        | some (xs, r3) => some (v :: xs, r3)
        | none => none
      | ']' :: r2 => some ([v], r2)
      | _ => none

/-- Comma-separated JSON object entries up to the closing brace. -/
def parseObjItems : Nat → Text → Option (List (Text × JVal) × Text)
  | 0, _ => none
  | fuel + 1, s =>
    match s with
    | '"' :: r =>
      match parseJString fuel r with
      | none => none
      | some (k, r2) =>
        match (r2.dropWhile isJWS) with
        | ':' :: r4 =>
          match parseJValue fuel (r4.dropWhile isJWS) with
          | none => none
          | some (v, r5) =>
            match (r5.dropWhile isJWS) with
            | ',' :: r7 =>
              match parseObjItems fuel (r7.dropWhile isJWS) with
              | some (kvs, r8) => some ((k, v) :: kvs, r8)
              | none => none
            | '\x7d' :: r7 => some ([(k, v)], r7)
            | _ => none
        | _ => none
    | _ => none

end

/-- `json.loads`: skip leading whitespace, parse one value, require only
whitespace to remain; `none` models a raised `JSONDecodeError`.  The fuel
`length + 1` is sufficient because every recursive step consumes at least
one character. -/
def jsonLoads (s : Text) : Option JVal :=
  let s1 := s.dropWhile isJWS
  match parseJValue (s1.length + 1) s1 with
  | none => none
  | some (v, r) => if (r.dropWhile isJWS).isEmpty then some v else none

/-- Python truthiness of a decoded JSON value (`if not timeline_events`). -/
def numIsZero (t : Text) : Bool :=
  t.all (fun c => !isDigitC c || c = '0') && t.any isDigitC

def jvalTruthy : JVal → Bool
  | .null => false
  | .bool b => b
  | .num t => !(numIsZero t)
  | .str s => !s.isEmpty
  | .arr xs => !xs.isEmpty
  | .obj kvs => !kvs.isEmpty

example : jsonLoads (txt "[]") = some (.arr []) := rfl

example : jsonLoads (txt " [\x7b\"time\": \"a\", \"event\": \"b\"\x7d] ") =
    some (.arr [.obj [(txt "time", .str (txt "a")), (txt "event", .str (txt "b"))]]) := rfl

example : jsonLoads (txt "[\x7b\"time\": \"a\"") = none := rfl

example : jsonLoads (txt "[1, -2.5e3, true]") =
    some (.arr [.num (txt "1"), .num (txt "-2.5e3"), .bool true]) := rfl

/-! ## `analyzer.py` `generate_report` channel extraction (lines 174-216) -/

def tjOpen : Text := txt "=== TIMELINE_JSON ==="
def tjClose : Text := txt "=== END_TIMELINE_JSON ==="
def mcOpen : Text := txt "=== MONITORING_CODE ==="
def mcClose : Text := txt "=== END_MONITORING_CODE ==="
def rtOpen : Text := txt "=== REGRESSION_TEST ==="
def rtClose : Text := txt "=== END_REGRESSION_TEST ==="

/-- The fenced block pattern ```` ```json\s*(.*?)\s*``` ````
(`generate_report` line 181) is the same open/close pair structure. -/
def jbOpen : Text := txt "```json"
def jbClose : Text := txt "```"

/-- `generate_report` lines 175-185: the value bound to `timeline_events`
after the `TIMELINE_JSON` channel step — `[]` if the marker pair is absent,
if no ```` ```json ```` block is inside the captured content, or if
`json.loads` raises; otherwise the decoded JSON value. -/
def timelineChannelValue (report : Text) : JVal :=
  match searchPair tjOpen tjClose report with
  | none => .arr []
  | some content =>
    match searchPair jbOpen jbClose content with
    | none => .arr []
    | some inner =>
      match jsonLoads inner with
      | some v => v
      | none => .arr []

/-- `generate_report` line 188: the report text after removing the
`TIMELINE_JSON` span(s) and stripping. -/
def strippedNarrativeT (report : Text) : Text :=
  strip (subPair tjOpen tjClose report)

/-- A fallback event as the dict `json.loads` would have produced. -/
def eventJ (e : TimelineEvent) : JVal :=
  .obj [(txt "time", .str e.time), (txt "event", .str e.event)]

/-- `generate_report` lines 175-192: the final `timeline_events` value —
the decoded channel if truthy, otherwise the fallback regex extraction run
on the stripped report. -/
def timeline_events_result (report : Text) : JVal :=
  let v := timelineChannelValue report
  if jvalTruthy v then v
  else .arr ((extract_timeline (strippedNarrativeT report)).map eventJ)

/-- `generate_report` lines 186-209: the narrative after all three channel
steps (the timeline `re.sub` runs unconditionally; the monitoring and
regression `re.sub`s run only when the respective `re.search` succeeded). -/
def segmentOnce (report : Text) : Text :=
  let r1 := strip (subPair tjOpen tjClose report)
  let r2 := if (searchPair mcOpen mcClose r1).isSome
    then strip (subPair mcOpen mcClose r1) else r1
  if (searchPair rtOpen rtClose r2).isSome
    then strip (subPair rtOpen rtClose r2) else r2

/-- How many of the three channel searches succeed when segmenting
`report` (each search runs on the text as the code sees it: monitoring on
the timeline-stripped text, regression on the monitoring-stripped text). -/
def channelsFound (report : Text) : Nat :=
  let r1 := strip (subPair tjOpen tjClose report)
  let r2 := if (searchPair mcOpen mcClose r1).isSome
    then strip (subPair mcOpen mcClose r1) else r1
  (if (searchPair tjOpen tjClose report).isSome then 1 else 0) +
  (if (searchPair mcOpen mcClose r1).isSome then 1 else 0) +
  (if (searchPair rtOpen rtClose r2).isSome then 1 else 0)

/-! ## `app.py` renderers -/

/-- `html.escape(s)` (with default `quote=True`). -/
def htmlEscapeChar (c : Char) : Text :=
  if c = '&' then txt "&amp;"
  else if c = '<' then txt "&lt;"
  else if c = '>' then txt "&gt;"
  else if c = '"' then txt "&quot;"
  else if c = '\x27' then txt "&#x27;"
  else [c]

def htmlEscape (s : Text) : Text := s.flatMap htmlEscapeChar

/-- The axis projection `(t - start).total_seconds() / duration.total_seconds() * 100`
as an exact rational, written `Rat.divInt ((t - start) * 100) duration`,
which equals the division-first formula over ℚ (`posPct_eq`). -/
def posPct (t start dur : Int) : ℚ := Rat.divInt ((t - start) * 100) dur

theorem posPct_eq (t start dur : Int) :
    posPct t start dur = ((t - start : Int) : ℚ) / (dur : ℚ) * 100 := by
  unfold posPct
  rw [Rat.divInt_eq_div]
  push_cast
  ring

/-- A rendered event dot: axis position (percent) and escaped hover text. -/
structure DotMark where
  pos : ℚ
  time : Text
  event : Text
deriving DecidableEq, Repr

/-- A rendered range bar: left position and width (percent). -/
structure RangeBar where
  left : ℚ
  width : ℚ
  time : Text
  event : Text
deriving DecidableEq, Repr

/-- Outcome of `render_timeline_with_events`: the first placeholder
("No significant timeline events found for charting."), the second
placeholder ("A timeline requires at least two events with valid
timestamps."), or a rendered chart. -/
inductive WResult where
  | noEvents
  | noValidTimestamps
  | chart (ranges : List RangeBar) (dots : List DotMark)
deriving DecidableEq, Repr

/-- A successfully parsed `time` field: a point or a range. -/
inductive ParsedItem where
  | pt (dt : DateTime)
  | rg (s e : DateTime)
deriving DecidableEq, Repr

/-- The per-event branch of the loop in `render_timeline_with_events`
(lines 496-517): try the range pattern first; if it matches, parse both
sides (reusing the start's date when the end is a bare time-of-day) and
keep the event only if both parse — otherwise the event is dropped
(`continue`) without trying the point pattern.  If the range pattern does
not match, try the bare point parse. -/
def classifyEvent (tf : Text) : Option ParsedItem :=
  match rangeMatchApp tf with
  | some (s1, s2) =>
    let endStr := if todFull s2 then datePart s1 ++ ' ' :: s2 else s2
    match parse_time s1, parse_time endStr with
    | some a, some b => some (.rg a b)
    | _, _ => none
  | none =>
    match parse_time tf with
    | some dt => some (.pt dt)
    | none => none

/-- The parsing loop of `render_timeline_with_events`: split the input into
point events and range events (each list in input order). -/
def parseEventsW : List TimelineEvent →
    List (DateTime × TimelineEvent) × List (DateTime × DateTime × TimelineEvent)
  | [] => ([], [])
  | e :: rest =>
    let (ps, rs) := parseEventsW rest
    match classifyEvent e.time with
    | some (.pt dt) => ((dt, e) :: ps, rs)
    | some (.rg a b) => (ps, (a, b, e) :: rs)
    | none => (ps, rs)

def minI : List Int → Int
  | [] => 0
  | t :: ts => ts.foldl min t

def maxI : List Int → Int
  | [] => 0
  | t :: ts => ts.foldl max t

/-- `all_times` (line 524): point instants, then range starts, then range
ends, linearized to seconds. -/
def allTimesW
    (pr : List (DateTime × TimelineEvent) ×
      List (DateTime × DateTime × TimelineEvent)) : List Int :=
  pr.1.map (fun p => toSecs p.1) ++ pr.2.map (fun r => toSecs r.1) ++
    pr.2.map (fun r => toSecs r.2.1)

/-- Lines 519-569 of `render_timeline_with_events` after parsing: the
zero-parsed placeholder, or the chart with range bars (left/width percent,
degenerate duration mapped to left 0 / right 100) and dots (degenerate
duration mapped to the 50% position). -/
def chartOfParsed
    (pr : List (DateTime × TimelineEvent) ×
      List (DateTime × DateTime × TimelineEvent)) : WResult :=
  if pr.1.isEmpty && pr.2.isEmpty then .noValidTimestamps
  else
    let all := allTimesW pr
    let start := minI all
    let dur : Int := maxI all - start
    let bars := pr.2.map (fun r =>
      let left : ℚ := if 0 < dur then posPct (toSecs r.1) start dur else 0
      let right : ℚ := if 0 < dur then posPct (toSecs r.2.1) start dur else 100
      RangeBar.mk left (right - left) (htmlEscape r.2.2.time) (htmlEscape r.2.2.event))
    let dots := pr.1.map (fun p =>
      let pos : ℚ := if 0 < dur then posPct (toSecs p.1) start dur else 50
      DotMark.mk pos (htmlEscape p.2.time) (htmlEscape p.2.event))
    .chart bars dots

/-- `app.py` `render_timeline_with_events` (lines 468-569). -/
def render_timeline_with_events (evs : List TimelineEvent) : WResult :=
  if evs.length < 2 then .noEvents
  else chartOfParsed (parseEventsW evs)

/-- Outcome of `render_horizontal_timeline`: the empty-input placeholder,
the fewer-than-two-parsed placeholder, or a chart of tick labels and dots. -/
inductive HResult where
  | noEvents
  | needTwo
  | chart (ticks : List (ℚ × Text)) (dots : List DotMark)
deriving DecidableEq, Repr

/-- The parsing loop of `render_horizontal_timeline` (lines 350-354). -/
def parsedH (evs : List TimelineEvent) : List (DateTime × TimelineEvent) :=
  evs.filterMap (fun e => (parse_start_time e.time).map (fun dt => (dt, e)))

/-- `min(e['dt'] for e in parsed_events)` as a datetime (first minimum on
ties, comparison by the linearization, which agrees with Python's
field-lexicographic datetime order on the valid datetimes `strptime`
produces). -/
def hStartDT (ps : List (DateTime × TimelineEvent)) : DateTime :=
  match ps with
  | [] => ⟨1970, 1, 1, 0, 0, 0⟩
  | p :: r =>
    (r.map (fun q => q.1)).foldl
      (fun a b => if toSecs b < toSecs a then b else a) p.1

def hStartS (ps : List (DateTime × TimelineEvent)) : Int := toSecs (hStartDT ps)

def hEndS (ps : List (DateTime × TimelineEvent)) : Int :=
  match ps with
  | [] => 0
  | p :: r => (r.map (fun q => toSecs q.1)).foldl max (toSecs p.1)

def hDur (ps : List (DateTime × TimelineEvent)) : Int := hEndS ps - hStartS ps

def pad2 (n : Nat) : Text := [Char.ofNat (48 + n / 10 % 10), Char.ofNat (48 + n % 10)]

/-- `strftime('%H:%M')` of the datetime at `secs`. -/
def fmtHM (secs : Int) : Text :=
  pad2 ((secs.emod 86400) / 3600).toNat ++ ':' :: pad2 ((secs.emod 86400 / 60) % 60).toNat

/-- `strftime('%H:00')`. -/
def fmtH00 (secs : Int) : Text :=
  pad2 ((secs.emod 86400) / 3600).toNat ++ txt ":00"

def monthAbbrev (m : Nat) : Text :=
  match m with
  | 1 => txt "Jan" | 2 => txt "Feb" | 3 => txt "Mar" | 4 => txt "Apr"
  | 5 => txt "May" | 6 => txt "Jun" | 7 => txt "Jul" | 8 => txt "Aug"
  | 9 => txt "Sep" | 10 => txt "Oct" | 11 => txt "Nov" | _ => txt "Dec"

/-- `strftime('%b %d')`. -/
def fmtBD (secs : Int) : Text :=
  let civ := civilFromDays (secs.fdiv 86400)
  monthAbbrev civ.2.1.toNat ++ ' ' :: pad2 civ.2.2.toNat

/-- The marker `while` loop (lines 376-379), in closed form: step from the
anchor while `current <= end_time + step`, keeping markers with
`current >= start_time - step`. -/
def markersFrom (sm step endS startS : Int) (fmt : Int → Text) :
    List (Int × Text) :=
  let n : Nat := (((endS + step - sm) / step) + 1).toNat
  ((List.range n).map (fun k => sm + k * step)).filterMap
    (fun t => if startS - step ≤ t then some (t, fmt t) else none)

/-- Marker generation (lines 364-379): granularity by duration; the anchor
is the start time rounded down (`replace`/`timedelta` on the start
datetime's fields). -/
def genMarkers (startDT : DateTime) (startS endS dur : Int) : List (Int × Text) :=
  if dur < 7200 then
    markersFrom (startS - startDT.second - (startDT.minute % 10) * 60)
      600 endS startS fmtHM
  else if dur < 172800 then
    markersFrom (startS - startDT.second - startDT.minute * 60)
      3600 endS startS fmtH00
  else
    markersFrom
      (startS - startDT.second - startDT.minute * 60 - startDT.hour * 3600)
      86400 endS startS fmtBD

/-- `markers` of `render_horizontal_timeline`: generated only when
`duration.total_seconds() > 1`. -/
def hMarkers (ps : List (DateTime × TimelineEvent)) : List (Int × Text) :=
  if 1 < hDur ps then genMarkers (hStartDT ps) (hStartS ps) (hEndS ps) (hDur ps)
  else []

/-- Tick rendering (lines 443-447): only when `duration > 0`, and only
ticks whose projected position lies in `[0, 100]`. -/
def hTicksShown (ps : List (DateTime × TimelineEvent)) : List (ℚ × Text) :=
  if 0 < hDur ps then
    (hMarkers ps).filterMap (fun m =>
      let pos : ℚ := posPct m.1 (hStartS ps) (hDur ps)
      if 0 ≤ pos ∧ pos ≤ 100 then some (pos, m.2) else none)
  else []

/-- Dot rendering (lines 450-461). -/
def hDots (ps : List (DateTime × TimelineEvent)) : List DotMark :=
  ps.map (fun p =>
    let pos : ℚ :=
      if 0 < hDur ps then posPct (toSecs p.1) (hStartS ps) (hDur ps) else 50
    DotMark.mk pos (htmlEscape p.2.time) (htmlEscape p.2.event))

/-- `app.py` `render_horizontal_timeline` (lines 323-465). -/
def render_horizontal_timeline (evs : List TimelineEvent) : HResult :=
  if evs.isEmpty then .noEvents
  else
    let ps := parsedH evs
    if ps.length < 2 then .needTwo
    else .chart (hTicksShown ps) (hDots ps)

example : render_timeline_with_events
    [⟨txt "2024-01-15 14:00:00", txt "a"⟩, ⟨txt "unknown", txt "b"⟩] =
    .chart [] [⟨50, txt "2024-01-15 14:00:00", txt "a"⟩] := by decide

example : classifyEvent (txt "2024-01-15 14:00:00 - 14:30:00") =
    some (.rg ⟨2024, 1, 15, 14, 0, 0⟩ ⟨2024, 1, 15, 14, 30, 0⟩) := by decide

example : render_horizontal_timeline
    [⟨txt "2024-01-15 14:00:00", txt "a"⟩, ⟨txt "2024-01-15 14:00:01", txt "b"⟩] =
    .chart [] [⟨0, txt "2024-01-15 14:00:00", txt "a"⟩,
               ⟨100, txt "2024-01-15 14:00:01", txt "b"⟩] := by decide

example : render_horizontal_timeline
    [⟨txt "2024-01-15 16:30:00", txt "A"⟩, ⟨txt "2024-01-15 17:15:00", txt "B"⟩] =
    .chart [(0, txt "16:30"), (Rat.divInt 200 9, txt "16:40"),
            (Rat.divInt 400 9, txt "16:50"), (Rat.divInt 600 9, txt "17:00"),
            (Rat.divInt 800 9, txt "17:10")]
      [⟨0, txt "2024-01-15 16:30:00", txt "A"⟩,
       ⟨100, txt "2024-01-15 17:15:00", txt "B"⟩] := by decide

/-! ## Timestamp rendering and parse round-trip lemmas -/

def pad4 (n : Nat) : Text :=
  [Char.ofNat (48 + n / 1000 % 10), Char.ofNat (48 + n / 100 % 10),
   Char.ofNat (48 + n / 10 % 10), Char.ofNat (48 + n % 10)]

/-- `YYYY-MM-DD`. -/
def fmtDate (y mo d : Nat) : Text :=
  pad4 y ++ '-' :: (pad2 mo ++ '-' :: pad2 d)

/-- `HH:MM` or `HH:MM:SS`. -/
def fmtHMS (h mi s : Nat) (withSec : Bool) : Text :=
  pad2 h ++ ':' :: (pad2 mi ++ (if withSec then ':' :: pad2 s else []))

/-- `YYYY-MM-DD HH:MM[:SS]`. -/
def fmtDT (y mo d h mi s : Nat) (b : Bool) : Text :=
  fmtDate y mo d ++ ' ' :: fmtHMS h mi s b

/-- `YYYY-MM-DD HH:MM:SS` of a datetime. -/
def fmtTS (dt : DateTime) : Text :=
  fmtDT dt.year dt.month dt.day dt.hour dt.minute dt.second true

theorem charOfNat_toNat {k : Nat} (h : k < 10) :
    (Char.ofNat (48 + k)).toNat = 48 + k := by
  interval_cases k <;> rfl

theorem isDigitC_ofNat {k : Nat} (h : k < 10) :
    isDigitC (Char.ofNat (48 + k)) = true := by
  interval_cases k <;> decide

theorem isWS_ofNatDigit {k : Nat} (h : k < 10) :
    isWS (Char.ofNat (48 + k)) = false := by
  interval_cases k <;> decide

theorem chompDigits_two {c1 c2 : Char} (rest : Text)
    (h1 : isDigitC c1 = true) (h2 : isDigitC c2 = true) :
    chompDigits 2 (c1 :: c2 :: rest) = some ([c1, c2], rest) := by
  simp [chompDigits, h1, h2]

theorem chompDigits_four {c1 c2 c3 c4 : Char} (rest : Text)
    (h1 : isDigitC c1 = true) (h2 : isDigitC c2 = true)
    (h3 : isDigitC c3 = true) (h4 : isDigitC c4 = true) :
    chompDigits 4 (c1 :: c2 :: c3 :: c4 :: rest) =
      some ([c1, c2, c3, c4], rest) := by
  simp [chompDigits, h1, h2, h3, h4]

theorem chompDigits_pad2 (n : Nat) (rest : Text) :
    chompDigits 2 (pad2 n ++ rest) = some (pad2 n, rest) := by
  unfold pad2
  exact chompDigits_two rest (isDigitC_ofNat (Nat.mod_lt _ (by omega)))
    (isDigitC_ofNat (Nat.mod_lt _ (by omega)))

theorem chompDigits_pad4 (n : Nat) (rest : Text) :
    chompDigits 4 (pad4 n ++ rest) = some (pad4 n, rest) := by
  unfold pad4
  exact chompDigits_four rest (isDigitC_ofNat (Nat.mod_lt _ (by omega)))
    (isDigitC_ofNat (Nat.mod_lt _ (by omega)))
    (isDigitC_ofNat (Nat.mod_lt _ (by omega)))
    (isDigitC_ofNat (Nat.mod_lt _ (by omega)))

theorem chompChar_self (c : Char) (t : Text) : chompChar c (c :: t) = some t := by
  simp [chompChar]

theorem trySec_pad2 (n : Nat) (rest : Text) :
    trySec (':' :: (pad2 n ++ rest)) = some (':' :: pad2 n, rest) := by
  unfold trySec
  rw [chompChar_self, Option.some_bind, chompDigits_pad2, Option.map_some']

theorem digitsToNat_pad2 {n : Nat} (h : n < 100) : digitsToNat (pad2 n) = n := by
  unfold digitsToNat pad2
  simp only [List.foldl_cons, List.foldl_nil]
  rw [charOfNat_toNat (Nat.mod_lt _ (by omega)),
    charOfNat_toNat (Nat.mod_lt _ (by omega))]
  omega

theorem digitsToNat_pad4 {n : Nat} (h : n < 10000) : digitsToNat (pad4 n) = n := by
  unfold digitsToNat pad4
  simp only [List.foldl_cons, List.foldl_nil]
  rw [charOfNat_toNat (Nat.mod_lt _ (by omega)),
    charOfNat_toNat (Nat.mod_lt _ (by omega)),
    charOfNat_toNat (Nat.mod_lt _ (by omega)),
    charOfNat_toNat (Nat.mod_lt _ (by omega))]
  omega

theorem chompSep_cons {sepOk : Char → Bool} {c : Char} (t : Text)
    (h : sepOk c = true) : chompSep sepOk (c :: t) = some (c, t) := by
  simp [chompSep, h]

theorem chompTS_fmt (sepOk : Char → Bool) (hsep : sepOk ' ' = true)
    (y mo d h mi s : Nat) (b : Bool) (rest : Text)
    (hy : y < 10000) (hmo : mo < 100) (hd : d < 100) (hh : h < 100)
    (hmi : mi < 100) (hs : b = true → s < 100)
    (hns : b = false → trySec rest = none) :
    chompTS sepOk (fmtDT y mo d h mi s b ++ rest) =
      some (⟨y, mo, d, h, mi, if b then some s else none⟩,
            fmtDT y mo d h mi s b, rest) := by
  cases b with
  | true =>
    unfold chompTS fmtDT fmtDate fmtHMS
    simp only [if_true]
    simp only [List.append_assoc, List.cons_append, List.nil_append]
    simp only [chompDigits_pad4, chompDigits_pad2, chompChar_self,
      chompSep_cons _ hsep, trySec_pad2, Option.some_bind]
    rw [digitsToNat_pad4 hy, digitsToNat_pad2 hmo, digitsToNat_pad2 hd,
      digitsToNat_pad2 hh, digitsToNat_pad2 hmi]
    simp only [List.drop_succ_cons, List.drop_zero]
    rw [digitsToNat_pad2 (hs rfl)]
  | false =>
    unfold chompTS fmtDT fmtDate fmtHMS
    simp only [Bool.false_eq_true, if_false]
    simp only [List.append_assoc, List.cons_append, List.nil_append]
    simp only [chompDigits_pad4, chompDigits_pad2, chompChar_self,
      chompSep_cons _ hsep, Option.some_bind]
    rw [hns rfl]
    rw [digitsToNat_pad4 hy, digitsToNat_pad2 hmo, digitsToNat_pad2 hd,
      digitsToNat_pad2 hh, digitsToNat_pad2 hmi]
    rfl

theorem daysInMonth_le (y m : Nat) : daysInMonth y m ≤ 31 := by
  unfold daysInMonth
  split_ifs <;> omega

theorem parse_time_fmtDT (y mo d h mi s : Nat) (b : Bool) (rest : Text)
    (hv : validDT ⟨y, mo, d, h, mi, if b then s else 0⟩ = true)
    (hns : b = false → trySec rest = none) :
    parse_time (fmtDT y mo d h mi s b ++ rest) =
      some ⟨y, mo, d, h, mi, if b then s else 0⟩ := by
  have hv' := hv
  simp only [validDT, Bool.and_eq_true, decide_eq_true_eq] at hv'
  have hdim := daysInMonth_le y mo
  have hy : y < 10000 := by omega
  have hmo : mo < 100 := by omega
  have hd : d < 100 := by omega
  have hh : h < 100 := by omega
  have hmi : mi < 100 := by omega
  have hs : b = true → s < 100 := by
    intro hb
    subst hb
    simp only [if_true] at hv'
    omega
  unfold parse_time
  rw [chompTS_fmt _ rfl y mo d h mi s b rest hy hmo hd hh hmi hs hns]
  dsimp only
  unfold strptimeTS
  have hgetd : ((if b then some s else none).getD 0) = (if b then s else 0) := by
    cases b <;> rfl
  dsimp only
  rw [hgetd, hv]
  simp

theorem chompTOD_fmt (h mi s : Nat) (b : Bool) (rest : Text)
    (hh : h < 100) (hmi : mi < 100) (hs : b = true → s < 100)
    (hns : b = false → trySec rest = none) :
    chompTOD (fmtHMS h mi s b ++ rest) = some (fmtHMS h mi s b, rest) := by
  cases b with
  | true =>
    unfold chompTOD fmtHMS
    simp only [if_true]
    simp only [List.append_assoc, List.cons_append, List.nil_append]
    simp only [chompDigits_pad2, chompChar_self, trySec_pad2, Option.some_bind]
  | false =>
    unfold chompTOD fmtHMS
    simp only [Bool.false_eq_true, if_false]
    simp only [List.append_assoc, List.cons_append, List.nil_append,
      List.append_nil]
    simp only [chompDigits_pad2, chompChar_self, Option.some_bind]
    rw [hns rfl]

theorem takeWhile_prefix_all {p : Char → Bool} {A : Text} {x : Char} (R : Text)
    (hA : ∀ c ∈ A, p c = true) (hx : p x = false) :
    (A ++ x :: R).takeWhile p = A := by
  induction A with
  | nil => simp [List.takeWhile, hx]
  | cons a t ih =>
    have ha : p a = true := hA a (List.mem_cons_self a t)
    simp only [List.cons_append, List.takeWhile_cons_of_pos ha]
    rw [ih (fun c hc => hA c (List.mem_cons_of_mem a hc))]

theorem pad2_not_ws {n : Nat} : ∀ c ∈ pad2 n, isWS c = false := by
  intro c hc
  unfold pad2 at hc
  rcases List.mem_cons.mp hc with h | h
  · subst h; exact isWS_ofNatDigit (Nat.mod_lt _ (by omega))
  · rcases List.mem_cons.mp h with h' | h'
    · subst h'; exact isWS_ofNatDigit (Nat.mod_lt _ (by omega))
    · exact absurd h' (List.not_mem_nil c)

theorem pad4_not_ws {n : Nat} : ∀ c ∈ pad4 n, isWS c = false := by
  intro c hc
  unfold pad4 at hc
  simp only [List.mem_cons, List.not_mem_nil, or_false] at hc
  rcases hc with h | h | h | h <;>
    (subst h; exact isWS_ofNatDigit (Nat.mod_lt _ (by omega)))

theorem fmtDate_not_ws {y mo d : Nat} : ∀ c ∈ fmtDate y mo d, isWS c = false := by
  intro c hc
  unfold fmtDate at hc
  simp only [List.mem_append, List.mem_cons] at hc
  rcases hc with h | h | h | h | h
  · exact pad4_not_ws c h
  · subst h; decide
  · exact pad2_not_ws c h
  · subst h; decide
  · exact pad2_not_ws c h

theorem datePart_fmtDT (y mo d h mi s : Nat) (b : Bool) :
    datePart (fmtDT y mo d h mi s b) = fmtDate y mo d := by
  unfold datePart fmtDT
  exact takeWhile_prefix_all _
    (fun c hc => by simp [fmtDate_not_ws c hc]) (by decide)

/-- The composed range string `<date> <time1> - <time2>` with a bare
time-of-day on the right. -/
def rangeStr (y mo d h1 mi1 s1 : Nat) (b1 : Bool) (h2 mi2 s2 : Nat)
    (b2 : Bool) : Text :=
  fmtDT y mo d h1 mi1 s1 b1 ++ ' ' :: '-' :: ' ' :: fmtHMS h2 mi2 s2 b2

theorem validDT_bounds {y mo d h mi s : Nat}
    (hv : validDT ⟨y, mo, d, h, mi, s⟩ = true) :
    y < 10000 ∧ mo < 100 ∧ d < 100 ∧ h < 100 ∧ mi < 100 ∧ s < 100 := by
  simp only [validDT, Bool.and_eq_true, decide_eq_true_eq] at hv
  have := daysInMonth_le y mo
  omega

theorem fmtHMS_dropWhile (h mi s : Nat) (b : Bool) :
    (fmtHMS h mi s b).dropWhile isWS = fmtHMS h mi s b := by
  unfold fmtHMS pad2
  simp only [List.cons_append]
  rw [List.dropWhile_cons_of_neg]
  simp [isWS_ofNatDigit (Nat.mod_lt (h / 10) (show 0 < 10 by omega))]

theorem rangeMatchApp_fmt (y mo d h1 mi1 s1 : Nat) (b1 : Bool)
    (h2 mi2 s2 : Nat) (b2 : Bool)
    (hy : y < 10000) (hmo : mo < 100) (hd : d < 100)
    (hh1 : h1 < 100) (hmi1 : mi1 < 100) (hs1 : b1 = true → s1 < 100)
    (hh2 : h2 < 100) (hmi2 : mi2 < 100) (hs2 : b2 = true → s2 < 100) :
    rangeMatchApp (rangeStr y mo d h1 mi1 s1 b1 h2 mi2 s2 b2) =
      some (fmtDT y mo d h1 mi1 s1 b1, fmtHMS h2 mi2 s2 b2) := by
  have hns1 : trySec (' ' :: '-' :: ' ' :: fmtHMS h2 mi2 s2 b2) = none := rfl
  have hnil : trySec ([] : Text) = none := rfl
  unfold rangeMatchApp rangeStr
  rw [chompTS_fmt _ rfl y mo d h1 mi1 s1 b1
    (' ' :: '-' :: ' ' :: fmtHMS h2 mi2 s2 b2) hy hmo hd hh1 hmi1 hs1
    (fun _ => hns1)]
  rw [Option.some_bind]
  dsimp only
  rw [List.dropWhile_cons_of_pos (by decide),
    List.dropWhile_cons_of_neg (by decide)]
  rw [chompChar_self, Option.some_bind]
  rw [List.dropWhile_cons_of_pos (by decide), fmtHMS_dropWhile]
  have htod := chompTOD_fmt h2 mi2 s2 b2 [] hh2 hmi2 hs2 (fun _ => hnil)
  rw [List.append_nil] at htod
  rw [htod]

theorem todFull_fmt (h2 mi2 s2 : Nat) (b2 : Bool)
    (hh2 : h2 < 100) (hmi2 : mi2 < 100) (hs2 : b2 = true → s2 < 100) :
    todFull (fmtHMS h2 mi2 s2 b2) = true := by
  unfold todFull
  have hnil : trySec ([] : Text) = none := rfl
  have htod := chompTOD_fmt h2 mi2 s2 b2 [] hh2 hmi2 hs2 (fun _ => hnil)
  rw [List.append_nil] at htod
  rw [htod]

/-- C6 — For every range-form time string whose right-hand side is a bare
time-of-day, the range parser reuses the left-hand side's date for the end
instant: a string `YYYY-MM-DD H1:M1[:S1] - H2:M2[:S2]` (with valid field
values) is classified as a range whose start is the left timestamp and
whose end carries the *same* date with the right time-of-day; seconds are
optional on both sides and default to `:00` when absent. -/
theorem c6_range_end_reuses_start_date
    (y mo d h1 mi1 s1 h2 mi2 s2 : Nat) (b1 b2 : Bool)
    (hv1 : validDT ⟨y, mo, d, h1, mi1, if b1 then s1 else 0⟩ = true)
    (hv2 : validDT ⟨y, mo, d, h2, mi2, if b2 then s2 else 0⟩ = true) :
    classifyEvent (rangeStr y mo d h1 mi1 s1 b1 h2 mi2 s2 b2) =
      some (.rg ⟨y, mo, d, h1, mi1, if b1 then s1 else 0⟩
        ⟨y, mo, d, h2, mi2, if b2 then s2 else 0⟩) := by
  obtain ⟨hy, hmo, hd, hh1, hmi1, _⟩ := validDT_bounds hv1
  obtain ⟨_, _, _, hh2, hmi2, _⟩ := validDT_bounds hv2
  have hs1 : b1 = true → s1 < 100 := by
    intro hb
    subst hb
    simpa using (validDT_bounds hv1).2.2.2.2.2
  have hs2 : b2 = true → s2 < 100 := by
    intro hb
    subst hb
    simpa using (validDT_bounds hv2).2.2.2.2.2
  unfold classifyEvent
  rw [rangeMatchApp_fmt y mo d h1 mi1 s1 b1 h2 mi2 s2 b2
    hy hmo hd hh1 hmi1 hs1 hh2 hmi2 hs2]
  dsimp only
  rw [todFull_fmt h2 mi2 s2 b2 hh2 hmi2 hs2]
  simp only [if_true]
  rw [datePart_fmtDT]
  have hp1 : parse_time (fmtDT y mo d h1 mi1 s1 b1) =
      some ⟨y, mo, d, h1, mi1, if b1 then s1 else 0⟩ := by
    have hnil : trySec ([] : Text) = none := rfl
    have := parse_time_fmtDT y mo d h1 mi1 s1 b1 [] hv1 (fun _ => hnil)
    rwa [List.append_nil] at this
  have hp2 : parse_time (fmtDate y mo d ++ ' ' :: fmtHMS h2 mi2 s2 b2) =
      some ⟨y, mo, d, h2, mi2, if b2 then s2 else 0⟩ := by
    have hnil : trySec ([] : Text) = none := rfl
    have := parse_time_fmtDT y mo d h2 mi2 s2 b2 [] hv2 (fun _ => hnil)
    rwa [List.append_nil] at this
  rw [hp1, hp2]

/-- C8 — For every timestamp string `YYYY-MM-DD HH:MM:SS` (a valid
datetime) at the start of a time field, the point parser returns the
instant whose fields are exactly the written values, with no timezone
shift, for any trailing text; and matching is anchored at the start: a
field that does not begin with a digit (e.g. a timestamp appearing only
mid-string) yields no point. -/
theorem c8_point_parser_literal_and_anchored :
    (∀ (dt : DateTime) (rest : Text), validDT dt = true →
      parse_time (fmtTS dt ++ rest) = some dt) ∧
    (∀ (c : Char) (rest : Text), isDigitC c = false →
      parse_time (c :: rest) = none) := by
  constructor
  · intro dt rest hv
    obtain ⟨y, mo, d, h, mi, s⟩ := dt
    have hv' : validDT ⟨y, mo, d, h, mi, if true then s else 0⟩ = true := by
      simpa using hv
    have := parse_time_fmtDT y mo d h mi s true rest hv'
      (fun hcon => absurd hcon (by simp))
    simpa [fmtTS] using this
  · intro c rest hc
    unfold parse_time chompTS
    have h4 : chompDigits 4 (c :: rest) = none := by
      simp [chompDigits, hc]
    rw [h4]
    rfl

/-- Witness for C8 at `2024-01-15 14:05:00` (with trailing text) and at a
mid-string timestamp. -/
theorem c8_witness :
    parse_time (txt "2024-01-15 14:05:00!") = some ⟨2024, 1, 15, 14, 5, 0⟩ ∧
    parse_time (txt "at 2024-01-15 14:05:00") = none := by
  constructor
  · have heq : fmtTS ⟨2024, 1, 15, 14, 5, 0⟩ ++ txt "!" =
        txt "2024-01-15 14:05:00!" := by decide
    rw [← heq]
    exact c8_point_parser_literal_and_anchored.1 ⟨2024, 1, 15, 14, 5, 0⟩
      (txt "!") (by decide)
  · have heq : ('a' :: txt "t 2024-01-15 14:05:00") =
        txt "at 2024-01-15 14:05:00" := by decide
    rw [← heq]
    exact c8_point_parser_literal_and_anchored.2 'a'
      (txt "t 2024-01-15 14:05:00") (by decide)

/-- Witness for C6 at `"2024-01-15 14:00:00 - 14:30:00"`. -/
theorem c6_witness :
    classifyEvent (txt "2024-01-15 14:00:00 - 14:30:00") =
      some (.rg ⟨2024, 1, 15, 14, 0, 0⟩ ⟨2024, 1, 15, 14, 30, 0⟩) := by
  have heq : rangeStr 2024 1 15 14 0 0 true 14 30 0 true =
      txt "2024-01-15 14:00:00 - 14:30:00" := by decide
  rw [← heq]
  have := c6_range_end_reuses_start_date 2024 1 15 14 0 0 14 30 0 true true
    (by decide) (by decide)
  simpa using this

/-- C9 — An event whose `time` field matches neither the point grammar nor
the range grammar is silently dropped: removing it from the input changes
neither the parsed point/range lists (hence neither the axis bounds) nor
the rendered chart content, and the remaining events are still processed
in order.  (The embedding is total, so no exception can be raised.) -/
theorem c9_unparseable_event_dropped (e : TimelineEvent)
    (l1 l2 : List TimelineEvent) (h : classifyEvent e.time = none) :
    parseEventsW (l1 ++ e :: l2) = parseEventsW (l1 ++ l2) ∧
    chartOfParsed (parseEventsW (l1 ++ e :: l2)) =
      chartOfParsed (parseEventsW (l1 ++ l2)) := by
  have key : parseEventsW (l1 ++ e :: l2) = parseEventsW (l1 ++ l2) := by
    induction l1 with
    | nil => simp [parseEventsW, h]
    | cons x xs ih =>
      simp only [List.cons_append, parseEventsW, List.append_eq, ih]
  exact ⟨key, by rw [key]⟩

/-- Witness for C9: dropping the middle unparseable event between two
parseable ones. -/
theorem c9_witness :
    parseEventsW [⟨txt "2024-01-15 14:00:00", txt "a"⟩,
        ⟨txt "not a time", txt "x"⟩, ⟨txt "2024-01-15 15:00:00", txt "b"⟩] =
      parseEventsW [⟨txt "2024-01-15 14:00:00", txt "a"⟩,
        ⟨txt "2024-01-15 15:00:00", txt "b"⟩] := by
  have := (c9_unparseable_event_dropped ⟨txt "not a time", txt "x"⟩
    [⟨txt "2024-01-15 14:00:00", txt "a"⟩]
    [⟨txt "2024-01-15 15:00:00", txt "b"⟩] (by decide)).1
  simpa using this

/-- C1 — code bug: the fallback extractor's section pattern is the raw
string `r"2\\. Timeline of Events:..."`, i.e. the regex
`2` + literal backslash + any character + `" Timeline of Events:"`, so the
heading `### 2. Timeline of Events:` (which contains no backslash) never
matches and the extractor returns no events, against the claim (and the
function's own docstring) that it yields one TimelineEvent. -/
theorem c1_claimed_heading_yields_no_events :
    extract_timeline
      (txt "### 2. Timeline of Events:\n2024-01-15 14:05:00: auth-service high memory\n") =
      [] := by
  decide

/-- Supporting fact for C1: the section pattern demands a literal
backslash, so the fallback extractor returns `[]` on every report that
contains no backslash character at all — it is dead code on real model
output. -/
theorem extract_timeline_nil_of_no_backslash (s : Text) (h : '\\' ∉ s) :
    extract_timeline s = [] := by
  have hsec : ∀ (t : Text), '\\' ∉ t → findSection t = none := by
    intro t
    induction t with
    | nil => intro _; rfl
    | cons c r ih =>
      intro hmem
      have hhm : headerMatch (c :: r) = none := by
        unfold headerMatch
        split
        · next heq =>
          exfalso
          rw [heq] at hmem
          exact hmem (by simp)
        · rfl
      have hstep : findSection (c :: r) = findSection r := by
        simp only [findSection, hhm]
      rw [hstep]
      exact ih (fun hc => hmem (List.mem_cons_of_mem c hc))
  unfold extract_timeline
  rw [hsec s h]

/-- C2 — code bug: with two input events of which only one has a parseable
`time`, `render_timeline_with_events` does not show the "requires at least
two events with valid timestamps" placeholder (its guard only fires when
*zero* events parse) but renders a degenerate chart with a single dot at
the 50% position. -/
theorem c2_single_parsed_event_renders_degenerate_chart :
    render_timeline_with_events
      [⟨txt "2024-01-15 14:00:00", txt "a"⟩, ⟨txt "unknown", txt "b"⟩] =
      .chart [] [⟨50, txt "2024-01-15 14:00:00", txt "a"⟩] := by
  decide

/-- C3 counterexample — two point events one second apart: the duration is
at most 1 second (so the claim demands every point at the 50% position),
yet the rendered dots sit at 0% and 100%. -/
theorem c3_counterexample :
    ¬ (hDur (parsedH [⟨txt "2024-01-15 14:00:00", txt "a"⟩,
          ⟨txt "2024-01-15 14:00:01", txt "b"⟩]) ≤ 1 →
       ∀ m ∈ hDots (parsedH [⟨txt "2024-01-15 14:00:00", txt "a"⟩,
          ⟨txt "2024-01-15 14:00:01", txt "b"⟩]), m.pos = 50) := by
  decide

/-- C3 amended — For every event list rendered as a chart by
`render_horizontal_timeline`: if the duration is at most 1 second no axis
ticks are generated; every point is placed at the 50% position when (and
only in the code path where) the duration is exactly zero; and for
positive duration every instant `t` projects to
`(t - start) / duration * 100`. -/
theorem c3_axis_ticks_and_projection (evs : List TimelineEvent)
    (hne : evs ≠ []) (h2 : 2 ≤ (parsedH evs).length) :
    render_horizontal_timeline evs =
      .chart (hTicksShown (parsedH evs)) (hDots (parsedH evs)) ∧
    (hDur (parsedH evs) ≤ 1 → hTicksShown (parsedH evs) = []) ∧
    (hDur (parsedH evs) = 0 → ∀ m ∈ hDots (parsedH evs), m.pos = 50) ∧
    (0 < hDur (parsedH evs) →
      hDots (parsedH evs) = (parsedH evs).map (fun p =>
        ⟨((toSecs p.1 - hStartS (parsedH evs) : Int) : ℚ) /
            ((hDur (parsedH evs) : Int) : ℚ) * 100,
         htmlEscape p.2.time, htmlEscape p.2.event⟩)) := by
  refine ⟨?_, ?_, ?_, ?_⟩
  · unfold render_horizontal_timeline
    rw [if_neg (by simpa [List.isEmpty_iff] using hne), if_neg (by omega)]
  · intro hle
    unfold hTicksShown hMarkers
    by_cases hpos : 0 < hDur (parsedH evs)
    · rw [if_pos hpos, if_neg (by omega)]
      rfl
    · rw [if_neg hpos]
  · intro h0
    intro m hm
    unfold hDots at hm
    rw [List.mem_map] at hm
    obtain ⟨p, _, hp⟩ := hm
    rw [← hp]
    simp [h0]
  · intro hpos
    unfold hDots
    refine List.map_congr_left (fun p _ => ?_)
    rw [if_pos hpos, posPct_eq]

/-- Witness for C3 (amended) at two events one second apart. -/
theorem c3_witness :
    ([⟨txt "2024-01-15 14:00:00", txt "a"⟩,
      ⟨txt "2024-01-15 14:00:01", txt "b"⟩] : List TimelineEvent) ≠ [] ∧
    2 ≤ (parsedH [⟨txt "2024-01-15 14:00:00", txt "a"⟩,
      ⟨txt "2024-01-15 14:00:01", txt "b"⟩]).length ∧
    render_horizontal_timeline [⟨txt "2024-01-15 14:00:00", txt "a"⟩,
        ⟨txt "2024-01-15 14:00:01", txt "b"⟩] =
      .chart (hTicksShown (parsedH [⟨txt "2024-01-15 14:00:00", txt "a"⟩,
          ⟨txt "2024-01-15 14:00:01", txt "b"⟩]))
        (hDots (parsedH [⟨txt "2024-01-15 14:00:00", txt "a"⟩,
          ⟨txt "2024-01-15 14:00:01", txt "b"⟩])) ∧
    hTicksShown (parsedH [⟨txt "2024-01-15 14:00:00", txt "a"⟩,
      ⟨txt "2024-01-15 14:00:01", txt "b"⟩]) = [] := by
  refine ⟨by decide, by decide, ?_, ?_⟩
  · exact (c3_axis_ticks_and_projection _ (by decide) (by decide)).1
  · exact (c3_axis_ticks_and_projection
      [⟨txt "2024-01-15 14:00:00", txt "a"⟩,
       ⟨txt "2024-01-15 14:00:01", txt "b"⟩] (by decide) (by decide)).2.1
      (by decide)

/-- C4 — When the `TIMELINE_JSON` marker pair is present but its captured
content has no ```` ```json ```` fenced block, or the block's content is
not valid JSON, the segmenter raises no exception (the embedding is total),
the channel is treated as absent, and the timeline value is exactly the
fallback text-section extraction run on the stripped report. -/
theorem c4_malformed_timeline_channel_falls_back (report content : Text)
    (hch : searchPair tjOpen tjClose report = some content)
    (hbad : ∀ inner, searchPair jbOpen jbClose content = some inner →
      jsonLoads inner = none) :
    timeline_events_result report =
      .arr ((extract_timeline (strippedNarrativeT report)).map eventJ) := by
  have hval : timelineChannelValue report = .arr [] := by
    unfold timelineChannelValue
    rw [hch]
    dsimp only
    cases hjb : searchPair jbOpen jbClose content with
    | none => rfl
    | some inner =>
      dsimp only
      rw [hbad inner hjb]
  unfold timeline_events_result
  rw [hval]
  rfl

/-- Witness for C4: a report whose timeline channel holds a truncated JSON
array. -/
theorem c4_witness :
    timeline_events_result
      (txt "Report.\n=== TIMELINE_JSON ===\n```json\n[\x7b\"time\": \"x\"\n```\n=== END_TIMELINE_JSON ===\nTail.") =
      .arr ((extract_timeline (strippedNarrativeT
        (txt "Report.\n=== TIMELINE_JSON ===\n```json\n[\x7b\"time\": \"x\"\n```\n=== END_TIMELINE_JSON ===\nTail."))).map
          eventJ) := by
  apply c4_malformed_timeline_channel_falls_back _
    (txt "```json\n[\x7b\"time\": \"x\"\n```")
  · rfl
  · intro inner hinner
    have hjb : searchPair jbOpen jbClose (txt "```json\n[\x7b\"time\": \"x\"\n```") =
        some (txt "[\x7b\"time\": \"x\"") := rfl
    rw [hjb] at hinner
    rw [← Option.some.inj hinner]
    rfl

/-- C10 — When the `TIMELINE_JSON` channel holds a well-formed fenced JSON
block that parses to an *empty* array, the pipeline still attempts the
fallback text-section extraction: the fallback is taken whenever the
extracted event value is falsy, not only when the block is absent or
parsing fails. -/
theorem c10_empty_array_still_falls_back (report content inner : Text)
    (hch : searchPair tjOpen tjClose report = some content)
    (hjb : searchPair jbOpen jbClose content = some inner)
    (hload : jsonLoads inner = some (.arr [])) :
    timeline_events_result report =
      .arr ((extract_timeline (strippedNarrativeT report)).map eventJ) := by
  have hval : timelineChannelValue report = .arr [] := by
    unfold timelineChannelValue
    rw [hch]
    dsimp only
    rw [hjb]
    dsimp only
    rw [hload]
  unfold timeline_events_result
  rw [hval]
  rfl

/-- Witness for C10: a report whose timeline channel holds ```[]```. -/
theorem c10_witness :
    timeline_events_result
      (txt "Report.\n=== TIMELINE_JSON ===\n```json\n[]\n```\n=== END_TIMELINE_JSON ===\nTail.") =
      .arr ((extract_timeline (strippedNarrativeT
        (txt "Report.\n=== TIMELINE_JSON ===\n```json\n[]\n```\n=== END_TIMELINE_JSON ===\nTail."))).map
          eventJ) := by
  exact c10_empty_array_still_falls_back _ (txt "```json\n[]\n```") (txt "[]")
    rfl rfl rfl

/-- C5 counterexample — a blob in which removing the leftmost (spliced)
`TIMELINE_JSON` span glues the surrounding text into a *new* well-formed
marker pair: the produced narrative still contains a full channel, so
re-segmenting it finds one channel and changes it — segmentation is not
idempotent on arbitrary blobs. -/
theorem c5_counterexample :
    channelsFound (segmentOnce
      (txt "=== TIMEL=== TIMELINE_JSON === x === END_TIMELINE_JSON ===INE_JSON === body === END_TIMELINE_JSON ===")) = 1 ∧
    segmentOnce (segmentOnce
      (txt "=== TIMEL=== TIMELINE_JSON === x === END_TIMELINE_JSON ===INE_JSON === body === END_TIMELINE_JSON ===")) ≠
    segmentOnce
      (txt "=== TIMEL=== TIMELINE_JSON === x === END_TIMELINE_JSON ===INE_JSON === body === END_TIMELINE_JSON ===") := by
  constructor
  · decide
  · decide

/-- C5 amended — For every blob that is well formed in the sense that each
sentinel marker occurs exactly at its delimiting position (including after
earlier channels are stripped) and the narrative parts carry no marker
occurrences and no outer whitespace: segmenting yields exactly the glued
narrative parts, the narrative contains no sentinel marker occurrence,
re-segmenting it finds zero channels, and changes nothing. -/
theorem c5_segmentation_idempotent_on_wellformed
    (n0 c1 n1 c2 n2 c3 n3 rest1 rest2 blob g : Text)
    (hrest2 : rest2 = n2 ++ rtOpen ++ c3 ++ rtClose ++ n3)
    (hrest1 : rest1 = n1 ++ mcOpen ++ c2 ++ mcClose ++ rest2)
    (hblob : blob = n0 ++ tjOpen ++ c1 ++ tjClose ++ rest1)
    (hg : g = n0 ++ n1 ++ n2 ++ n3)
    (hT1 : occList tjOpen blob = [n0.length])
    (hT2 : occList tjClose blob = [n0.length + tjOpen.length + c1.length])
    (hs1 : strip (n0 ++ rest1) = n0 ++ rest1)
    (hM1 : occList mcOpen (n0 ++ rest1) = [n0.length + n1.length])
    (hM2 : occList mcClose (n0 ++ rest1) =
      [n0.length + n1.length + mcOpen.length + c2.length])
    (hs2 : strip (n0 ++ n1 ++ rest2) = n0 ++ n1 ++ rest2)
    (hR1 : occList rtOpen (n0 ++ n1 ++ rest2) =
      [n0.length + n1.length + n2.length])
    (hR2 : occList rtClose (n0 ++ n1 ++ rest2) =
      [n0.length + n1.length + n2.length + rtOpen.length + c3.length])
    (hs3 : strip g = g)
    (hN : ∀ m ∈ [tjOpen, tjClose, mcOpen, mcClose, rtOpen, rtClose],
      occList m g = []) :
    segmentOnce blob = g ∧
    (∀ m ∈ [tjOpen, tjClose, mcOpen, mcClose, rtOpen, rtClose],
      occList m g = []) ∧
    channelsFound g = 0 ∧ segmentOnce g = g := by
  have ne1 : tjOpen ≠ [] := by decide
  have ne2 : tjClose ≠ [] := by decide
  have ne3 : mcOpen ≠ [] := by decide
  have ne4 : mcClose ≠ [] := by decide
  have ne5 : rtOpen ≠ [] := by decide
  have ne6 : rtClose ≠ [] := by decide
  have hNtj := hN tjOpen (by simp)
  have hNmc := hN mcOpen (by simp)
  have hNrt := hN rtOpen (by simp)
  subst hblob hrest1 hrest2 hg
  -- stage shapes
  have hshape1 : n0 ++ (n1 ++ mcOpen ++ c2 ++ mcClose ++
      (n2 ++ rtOpen ++ c3 ++ rtClose ++ n3)) =
      (n0 ++ n1) ++ mcOpen ++ c2 ++ mcClose ++
        (n2 ++ rtOpen ++ c3 ++ rtClose ++ n3) := by
    simp [List.append_assoc]
  have hshape2 : (n0 ++ n1) ++ (n2 ++ rtOpen ++ c3 ++ rtClose ++ n3) =
      (n0 ++ n1 ++ n2) ++ rtOpen ++ c3 ++ rtClose ++ n3 := by
    simp [List.append_assoc]
  -- stage T
  have hsubT := subPair_structured n0 c1
    (n1 ++ mcOpen ++ c2 ++ mcClose ++ (n2 ++ rtOpen ++ c3 ++ rtClose ++ n3))
    ne1 ne2 hT1 hT2
  -- stage M hypotheses in reshaped form
  have hM1' : occList mcOpen ((n0 ++ n1) ++ mcOpen ++ c2 ++ mcClose ++
      (n2 ++ rtOpen ++ c3 ++ rtClose ++ n3)) = [(n0 ++ n1).length] := by
    rw [← hshape1, List.length_append]
    exact hM1
  have hM2' : occList mcClose ((n0 ++ n1) ++ mcOpen ++ c2 ++ mcClose ++
      (n2 ++ rtOpen ++ c3 ++ rtClose ++ n3)) =
      [(n0 ++ n1).length + mcOpen.length + c2.length] := by
    rw [← hshape1, List.length_append]
    exact hM2
  have hsubM := subPair_structured (n0 ++ n1) c2
    (n2 ++ rtOpen ++ c3 ++ rtClose ++ n3) ne3 ne4 hM1' hM2'
  have hsearchM := searchPair_structured (n0 ++ n1) c2
    (n2 ++ rtOpen ++ c3 ++ rtClose ++ n3) ne3 ne4 hM1' hM2'
  -- stage R hypotheses in reshaped form
  have hR1' : occList rtOpen ((n0 ++ n1 ++ n2) ++ rtOpen ++ c3 ++ rtClose ++ n3) =
      [(n0 ++ n1 ++ n2).length] := by
    rw [← hshape2]
    simp only [List.length_append]
    have := hR1
    rw [← List.append_assoc] at this
    simpa using this
  have hR2' : occList rtClose ((n0 ++ n1 ++ n2) ++ rtOpen ++ c3 ++ rtClose ++ n3) =
      [(n0 ++ n1 ++ n2).length + rtOpen.length + c3.length] := by
    rw [← hshape2]
    simp only [List.length_append]
    have := hR2
    rw [← List.append_assoc] at this
    simpa using this
  have hsubR := subPair_structured (n0 ++ n1 ++ n2) c3 n3 ne5 ne6 hR1' hR2'
  have hsearchR := searchPair_structured (n0 ++ n1 ++ n2) c3 n3 ne5 ne6 hR1' hR2'
  -- the segmented narrative
  have hmain : segmentOnce
      (n0 ++ tjOpen ++ c1 ++ tjClose ++
        (n1 ++ mcOpen ++ c2 ++ mcClose ++
          (n2 ++ rtOpen ++ c3 ++ rtClose ++ n3))) = n0 ++ n1 ++ n2 ++ n3 := by
    unfold segmentOnce
    dsimp only
    rw [hsubT, hs1, hshape1, hsearchM, hsubM]
    simp only [Option.isSome_some, eq_self_iff_true, if_true]
    rw [hs2, hshape2, hsearchR, hsubR]
    simp only [Option.isSome_some, eq_self_iff_true, if_true]
    have hsg : strip ((n0 ++ n1 ++ n2) ++ n3) = (n0 ++ n1 ++ n2) ++ n3 := hs3
    rw [hsg]
  -- second pass on the narrative
  have hsubTg := @subPair_of_no_open _ tjClose _ ne1 hNtj
  have hsearchMg := @searchPair_none_of_no_open _ mcClose _ ne3 hNmc
  have hsearchRg := @searchPair_none_of_no_open _ rtClose _ ne5 hNrt
  have hseg_g : segmentOnce (n0 ++ n1 ++ n2 ++ n3) = n0 ++ n1 ++ n2 ++ n3 := by
    unfold segmentOnce
    dsimp only
    rw [hsubTg, hs3, hsearchMg]
    simp only [Option.isSome_none, Bool.false_eq_true, if_false]
    rw [hsearchRg]
    simp only [Option.isSome_none, Bool.false_eq_true, if_false]
  have hchan_g : channelsFound (n0 ++ n1 ++ n2 ++ n3) = 0 := by
    unfold channelsFound
    dsimp only
    rw [hsubTg, hs3, hsearchMg,
      @searchPair_none_of_no_open _ tjClose _ ne1 hNtj]
    simp only [Option.isSome_none, Bool.false_eq_true, if_false]
    rw [hsearchRg]
    simp only [Option.isSome_none, Bool.false_eq_true, if_false]
  exact ⟨hmain, hN, hchan_g, hseg_g⟩

set_option maxRecDepth 4096 in
/-- Witness for C5 (amended) on a concrete well-formed blob with all three
channels. -/
theorem c5_witness :
    segmentOnce (txt "Intro.=== TIMELINE_JSON ===[1]=== END_TIMELINE_JSON ===Mid.=== MONITORING_CODE ===tf=== END_MONITORING_CODE ===More.=== REGRESSION_TEST ===py=== END_REGRESSION_TEST ===End.") =
      txt "Intro.Mid.More.End." ∧
    channelsFound (txt "Intro.Mid.More.End.") = 0 ∧
    segmentOnce (txt "Intro.Mid.More.End.") = txt "Intro.Mid.More.End." := by
  have h := c5_segmentation_idempotent_on_wellformed
    (txt "Intro.") (txt "[1]") (txt "Mid.") (txt "tf") (txt "More.")
    (txt "py") (txt "End.")
    (txt "Mid.=== MONITORING_CODE ===tf=== END_MONITORING_CODE ===More.=== REGRESSION_TEST ===py=== END_REGRESSION_TEST ===End.")
    (txt "More.=== REGRESSION_TEST ===py=== END_REGRESSION_TEST ===End.")
    (txt "Intro.=== TIMELINE_JSON ===[1]=== END_TIMELINE_JSON ===Mid.=== MONITORING_CODE ===tf=== END_MONITORING_CODE ===More.=== REGRESSION_TEST ===py=== END_REGRESSION_TEST ===End.")
    (txt "Intro.Mid.More.End.")
    (by decide) (by decide) (by decide) (by decide) (by decide) (by decide)
    (by decide) (by decide) (by decide) (by decide) (by decide) (by decide)
    (by decide) (by decide)
  exact ⟨h.1, h.2.2.1, h.2.2.2⟩

/-- C7 counterexample — inside a (code-matchable) timeline section, a line
carrying a *full-timestamp* range `2024-01-15 14:00:00-2024-01-15 15:00:00:`
does not become an event whose time is the matched range string: the
event-line pattern only allows a bare time-of-day after the dash, and
backtracking makes the optional seconds group release, so the line matches
with the *truncated* time `2024-01-15 14:00` and the mangled description
`00-2024-01-15 15:00:00: overload`. -/
theorem c7_counterexample :
    extract_timeline
      (txt "2\\. Timeline of Events:\n2024-01-15 14:00:00-2024-01-15 15:00:00: overload") =
      [⟨txt "2024-01-15 14:00", txt "00-2024-01-15 15:00:00: overload"⟩] ∧
    (txt "2024-01-15 14:00" : Text) ≠
      txt "2024-01-15 14:00:00-2024-01-15 15:00:00" := by
  exact ⟨by decide, by decide⟩

/-! ### Append-transfer lemmas for the event-line matcher

The `re.MULTILINE` scan attempts the event-line pattern at line starts
inside the whole section text.  The following lemmas show that on a line
followed by a newline (or the end of the text), the pattern behaves exactly
as on the line alone: every character test the matcher performs either
happens inside the line or hits the line end, and the characters it tests
for (digits, `-`, ` `, `:`) are never `\n`. -/

/-- The text after the current line is empty or starts with a newline. -/
def nlHead (b : Text) : Prop := b = [] ∨ ∃ r, b = '\n' :: r

theorem chompChar_append_some {ch : Char} {s t : Text} (b : Text)
    (h : chompChar ch s = some t) : chompChar ch (s ++ b) = some (t ++ b) := by
  cases s with
  | nil => simp [chompChar] at h
  | cons c r =>
    by_cases hc : c = ch
    · simp [chompChar, hc] at h ⊢
      simp [← h]
    · simp [chompChar, hc] at h

theorem chompChar_append_none {ch : Char} {s : Text} {b : Text}
    (h : chompChar ch s = none) (hch : ch ≠ '\n') (hb : nlHead b) :
    chompChar ch (s ++ b) = none := by
  cases s with
  | nil =>
    rcases hb with rfl | ⟨r, rfl⟩
    · exact h
    · simp [chompChar]
      intro hcon
      exact hch hcon.symm
  | cons c r =>
    by_cases hc : c = ch
    · simp [chompChar, hc] at h
    · simp [chompChar, hc]

theorem chompDigits_append_some :
    ∀ {n : Nat} {s x y : Text} (b : Text), chompDigits n s = some (x, y) →
      chompDigits n (s ++ b) = some (x, y ++ b) := by
  intro n
  induction n with
  | zero =>
    intro s x y b h
    simp [chompDigits] at h ⊢
    simp [h.1, ← h.2]
  | succ m ih =>
    intro s x y b h
    cases s with
    | nil => simp [chompDigits] at h
    | cons c r =>
      by_cases hd : isDigitC c = true
      · simp only [chompDigits, hd, if_pos, Option.map_eq_some'] at h
        obtain ⟨⟨x', y'⟩, hrec, hxy⟩ := h
        have hx : c :: x' = x := congrArg Prod.fst hxy
        have hy : y' = y := congrArg Prod.snd hxy
        subst hx hy
        simp only [List.cons_append, chompDigits, hd, if_pos, List.append_eq]
        rw [ih b hrec]
        rfl
      · simp [chompDigits, hd] at h

theorem chompDigits_append_none :
    ∀ {n : Nat} {s : Text} {b : Text}, chompDigits n s = none → nlHead b →
      chompDigits n (s ++ b) = none := by
  intro n
  induction n with
  | zero => intro s b h _; simp [chompDigits] at h
  | succ m ih =>
    intro s b h hb
    cases s with
    | nil =>
      rcases hb with rfl | ⟨r, rfl⟩
      · exact h
      · simp [chompDigits]
        intro hcon
        exact absurd hcon (by decide)
    | cons c r =>
      by_cases hd : isDigitC c = true
      · simp only [chompDigits, hd, if_pos] at h ⊢
        cases hrec : chompDigits m r with
        | none =>
          simp only [List.append_eq]
          rw [ih hrec hb]
          rfl
        | some p => rw [hrec] at h; simp at h
      · simp [chompDigits, hd] at h ⊢

theorem trySec_append_some {s t r : Text} (b : Text)
    (h : trySec s = some (t, r)) : trySec (s ++ b) = some (t, r ++ b) := by
  unfold trySec at h ⊢
  simp only [Option.bind_eq_some, Option.map_eq_some'] at h
  obtain ⟨s1, h1, ⟨x, y⟩, hd, heq⟩ := h
  have ht : ':' :: (x, y).1 = t := congrArg Prod.fst heq
  have hr : (x, y).2 = r := congrArg Prod.snd heq
  dsimp only at ht hr
  subst ht hr
  rw [chompChar_append_some b h1, Option.some_bind,
      chompDigits_append_some b hd]
  rfl

theorem trySec_append_none {s : Text} {b : Text}
    (h : trySec s = none) (hb : nlHead b) : trySec (s ++ b) = none := by
  unfold trySec at h ⊢
  cases h1 : chompChar ':' s with
  | none =>
    rw [chompChar_append_none h1 (by decide) hb]
    rfl
  | some s1 =>
    rw [h1, Option.some_bind] at h
    cases hd : chompDigits 2 s1 with
    | none =>
      rw [chompChar_append_some b h1, Option.some_bind,
          chompDigits_append_none hd hb]
      rfl
    | some p => rw [hd] at h; simp at h

theorem chompDateHM_append_some {s ts r : Text} (b : Text)
    (h : chompDateHM s = some (ts, r)) :
    chompDateHM (s ++ b) = some (ts, r ++ b) := by
  unfold chompDateHM at h ⊢
  simp only [Option.bind_eq_some, Option.map_eq_some'] at h
  obtain ⟨⟨dy, s1⟩, h1, s2, h2, ⟨dmo, s3⟩, h3, s4, h4, ⟨dd, s5⟩, h5,
    s6, h6, ⟨dh, s7⟩, h7, s8, h8, ⟨dmi, s9⟩, h9, heq⟩ := h
  dsimp only at h2 h3 h4 h5 h6 h7 h8 h9 heq
  have hts := congrArg Prod.fst heq
  have hr := congrArg Prod.snd heq
  dsimp only at hts hr
  subst hts hr
  simp only [chompDigits_append_some b h1, chompChar_append_some b h2,
    chompDigits_append_some b h3, chompChar_append_some b h4,
    chompDigits_append_some b h5, chompChar_append_some b h6,
    chompDigits_append_some b h7, chompChar_append_some b h8,
    chompDigits_append_some b h9, Option.some_bind, Option.map_some']

theorem chompDateHM_append_none {s : Text} {b : Text}
    (h : chompDateHM s = none) (hb : nlHead b) :
    chompDateHM (s ++ b) = none := by
  unfold chompDateHM at h ⊢
  cases h1 : chompDigits 4 s with
  | none => rw [chompDigits_append_none h1 hb]; rfl
  | some p1 =>
    obtain ⟨dy, s1⟩ := p1
    rw [h1] at h
    simp only [Option.some_bind] at h
    simp only [chompDigits_append_some b h1, Option.some_bind]
    cases h2 : chompChar '-' s1 with
    | none => rw [chompChar_append_none h2 (by decide) hb]; rfl
    | some s2 =>
      rw [h2] at h
      simp only [Option.some_bind] at h
      simp only [chompChar_append_some b h2, Option.some_bind]
      cases h3 : chompDigits 2 s2 with
      | none => rw [chompDigits_append_none h3 hb]; rfl
      | some p3 =>
        obtain ⟨dmo, s3⟩ := p3
        rw [h3] at h
        simp only [Option.some_bind] at h
        simp only [chompDigits_append_some b h3, Option.some_bind]
        cases h4 : chompChar '-' s3 with
        | none => rw [chompChar_append_none h4 (by decide) hb]; rfl
        | some s4 =>
          rw [h4] at h
          simp only [Option.some_bind] at h
          simp only [chompChar_append_some b h4, Option.some_bind]
          cases h5 : chompDigits 2 s4 with
          | none => rw [chompDigits_append_none h5 hb]; rfl
          | some p5 =>
            obtain ⟨dd, s5⟩ := p5
            rw [h5] at h
            simp only [Option.some_bind] at h
            simp only [chompDigits_append_some b h5, Option.some_bind]
            cases h6 : chompChar ' ' s5 with
            | none => rw [chompChar_append_none h6 (by decide) hb]; rfl
            | some s6 =>
              rw [h6] at h
              simp only [Option.some_bind] at h
              simp only [chompChar_append_some b h6, Option.some_bind]
              cases h7 : chompDigits 2 s6 with
              | none => rw [chompDigits_append_none h7 hb]; rfl
              | some p7 =>
                obtain ⟨dh, s7⟩ := p7
                rw [h7] at h
                simp only [Option.some_bind] at h
                simp only [chompDigits_append_some b h7, Option.some_bind]
                cases h8 : chompChar ':' s7 with
                | none => rw [chompChar_append_none h8 (by decide) hb]; rfl
                | some s8 =>
                  rw [h8] at h
                  simp only [Option.some_bind] at h
                  simp only [chompChar_append_some b h8, Option.some_bind]
                  cases h9 : chompDigits 2 s8 with
                  | none => rw [chompDigits_append_none h9 hb]; rfl
                  | some p9 => rw [h9] at h; simp at h

theorem secCands_append {s : Text} (b : Text) (hb : nlHead b) :
    secCands (s ++ b) = (secCands s).map (fun p => (p.1, p.2 ++ b)) := by
  unfold secCands
  cases hts : trySec s with
  | none => rw [trySec_append_none hts hb]; rfl
  | some p =>
    obtain ⟨t, r⟩ := p
    rw [trySec_append_some b hts]
    rfl

theorem rangeCands_append {s : Text} (b : Text) (hb : nlHead b) :
    rangeCands (s ++ b) = (rangeCands s).map (fun p => (p.1, p.2 ++ b)) := by
  unfold rangeCands
  cases h1 : chompChar '-' s with
  | none => rw [chompChar_append_none h1 (by decide) hb]; rfl
  | some s1 =>
    rw [chompChar_append_some b h1]
    dsimp only
    cases h2 : chompDigits 2 s1 with
    | none => rw [chompDigits_append_none h2 hb]; rfl
    | some p2 =>
      obtain ⟨dh, s2⟩ := p2
      rw [chompDigits_append_some b h2]
      dsimp only
      cases h3 : chompChar ':' s2 with
      | none => rw [chompChar_append_none h3 (by decide) hb]; rfl
      | some s3 =>
        rw [chompChar_append_some b h3]
        dsimp only
        cases h4 : chompDigits 2 s3 with
        | none => rw [chompDigits_append_none h4 hb]; rfl
        | some p4 =>
          obtain ⟨dmi, s4⟩ := p4
          rw [chompDigits_append_some b h4]
          dsimp only
          cases h5 : trySec s4 with
          | none => rw [trySec_append_none h5 hb]; rfl
          | some p5 =>
            obtain ⟨st, r⟩ := p5
            rw [trySec_append_some b h5]
            rfl

/-- The continuation `:` applied to each backtracking candidate commutes
with extending every candidate rest by the following text. -/
theorem findColon_append (cs : List (Text × Text)) {b : Text} (hb : nlHead b) :
    (cs.map (fun p => (p.1, p.2 ++ b))).findSome?
        (fun p => (chompChar ':' p.2).map (fun r => (p.1, r))) =
      ((cs.findSome?
        (fun p => (chompChar ':' p.2).map (fun r => (p.1, r)))).map
          (fun q => (q.1, q.2 ++ b))) := by
  induction cs with
  | nil => rfl
  | cons p rest ih =>
    obtain ⟨e, r⟩ := p
    simp only [List.map_cons, List.findSome?_cons]
    cases hc : chompChar ':' r with
    | none =>
      rw [chompChar_append_none hc (by decide) hb]
      simpa using ih
    | some r2 =>
      rw [chompChar_append_some b hc]
      rfl

/-- The combined backtracking candidates of `matchEventLine` (seconds
alternatives crossed with range alternatives). -/
def eventCands (s1 : Text) : List (Text × Text) :=
  (secCands s1).flatMap
    (fun p => (rangeCands p.2).map (fun q => (p.1 ++ q.1, q.2)))

theorem eventCands_append (s1 : Text) {b : Text} (hb : nlHead b) :
    eventCands (s1 ++ b) = (eventCands s1).map (fun p => (p.1, p.2 ++ b)) := by
  unfold eventCands
  rw [secCands_append b hb]
  induction secCands s1 with
  | nil => rfl
  | cons p rest ih =>
    obtain ⟨e, r⟩ := p
    simp only [List.map_cons, List.flatMap_cons, List.map_append, ih]
    congr 1
    dsimp only
    rw [rangeCands_append b hb]
    simp [List.map_map, Function.comp]

theorem takeWhile_eq_self_of_drop_nil {p : Char → Bool} {A : Text}
    (h : A.drop (A.takeWhile p).length = []) : A.takeWhile p = A := by
  have h1 : A.length ≤ (A.takeWhile p).length := List.drop_eq_nil_iff.mp h
  have h2 : (A.takeWhile p).length ≤ A.length :=
    (List.takeWhile_prefix p).length_le
  exact List.IsPrefix.eq_of_length (List.takeWhile_prefix p) (by omega)

/-- A successful event-line match on a whole line (nonempty description,
nothing left over) transfers verbatim to the line followed by the rest of
the text: the rest begins with a newline, so the greedy `\s*` and the
line-bounded `(.*)` stop exactly at the line end. -/
theorem matchEventLine_append {l tt dd : Text} (b : Text)
    (h : matchEventLine l = some (tt, dd, []))
    (hdd : dd ≠ []) (hb : nlHead b) :
    matchEventLine (l ++ b) = some (tt, dd, b) := by
  unfold matchEventLine at h ⊢
  cases hc : chompDateHM l with
  | none => rw [hc] at h; exact absurd h (by simp)
  | some p =>
    obtain ⟨ts, s1⟩ := p
    rw [hc] at h
    rw [chompDateHM_append_some b hc]
    dsimp only at h ⊢
    rw [show ((secCands (s1 ++ b)).flatMap
          (fun p => (rangeCands p.2).map (fun q => (p.1 ++ q.1, q.2)))) =
        eventCands (s1 ++ b) from rfl,
      eventCands_append s1 hb]
    rw [show ((secCands s1).flatMap
          (fun p => (rangeCands p.2).map (fun q => (p.1 ++ q.1, q.2)))) =
        eventCands s1 from rfl] at h
    rw [findColon_append (eventCands s1) hb]
    cases hf : (eventCands s1).findSome?
        (fun p => (chompChar ':' p.2).map (fun r => (p.1, r))) with
    | none => rw [hf] at h; exact absurd h (by simp)
    | some q =>
      obtain ⟨ext, s2⟩ := q
      rw [hf] at h
      dsimp only [Option.map_some'] at h ⊢
      rw [Option.some.injEq, Prod.mk.injEq, Prod.mk.injEq] at h
      obtain ⟨htt, hd2, hr2⟩ := h
      have hA : (s2.dropWhile isWS).takeWhile (fun c => c ≠ '\n') =
          s2.dropWhile isWS := takeWhile_eq_self_of_drop_nil hr2
      have hAd : s2.dropWhile isWS = dd := hA.symm.trans hd2
      have hAne : ¬(s2.dropWhile isWS).isEmpty := by
        rw [hAd]
        simpa using hdd
      rw [List.dropWhile_append, if_neg (by simpa using hAne), hAd]
      have hnonl : ∀ c ∈ dd, (c ≠ '\n' : Bool) = true := by
        intro c hcmem
        rw [← hAd, ← hA] at hcmem
        exact @List.mem_takeWhile_imp Char (fun c => decide (c ≠ '\n'))
          (s2.dropWhile isWS) c hcmem
      have htk : (dd ++ b).takeWhile (fun c => (c ≠ '\n' : Bool)) = dd := by
        rw [List.takeWhile_append,
            if_pos (by rw [List.takeWhile_eq_self_iff.mpr hnonl])]
        rcases hb with rfl | ⟨r, rfl⟩
        · simp [List.takeWhile_eq_self_iff.mpr hnonl]
        · simp [List.takeWhile_cons_of_neg]
      rw [htk, htt, List.drop_left]

/-- A failed event-line match on a whole line transfers to the line
followed by the rest of the text. -/
theorem matchEventLine_append_none {l : Text} {b : Text}
    (h : matchEventLine l = none) (hb : nlHead b) :
    matchEventLine (l ++ b) = none := by
  unfold matchEventLine at h ⊢
  cases hc : chompDateHM l with
  | none => rw [chompDateHM_append_none hc hb]
  | some p =>
    obtain ⟨ts, s1⟩ := p
    rw [hc] at h
    rw [chompDateHM_append_some b hc]
    dsimp only at h ⊢
    rw [show ((secCands (s1 ++ b)).flatMap
          (fun p => (rangeCands p.2).map (fun q => (p.1 ++ q.1, q.2)))) =
        eventCands (s1 ++ b) from rfl,
      eventCands_append s1 hb]
    rw [show ((secCands s1).flatMap
          (fun p => (rangeCands p.2).map (fun q => (p.1 ++ q.1, q.2)))) =
        eventCands s1 from rfl] at h
    rw [findColon_append (eventCands s1) hb]
    cases hf : (eventCands s1).findSome?
        (fun p => (chompChar ':' p.2).map (fun r => (p.1, r))) with
    | none => rfl
    | some q =>
      rw [hf] at h
      obtain ⟨ext, s2⟩ := q
      exact absurd h (by simp)

/-! ### Per-line characterization of the timeline extraction -/

/-- Glue lines with single newlines (no trailing newline). -/
def joinNL : List Text → Text
  | [] => []
  | [l] => l
  | l :: ls => l ++ '\n' :: joinNL ls

/-- A line that would let the section pattern's tail alternative `\n\d+\.\s`
fire at the preceding newline: a digit run, then a literal dot followed by
a whitespace character — or a dot at the line end, since the newline after
the line is itself `\s`. -/
def numDotPrefix (l : Text) : Bool :=
  let ds := l.takeWhile isDigitC
  !ds.isEmpty &&
    (match l.drop ds.length with
     | ['.'] => true
     | '.' :: w :: _ => isWS w
     | _ => false)

/-- Well-behaved line for the per-line reading of the section scan:
nonempty, no embedded newline, does not begin with whitespace, does not
look like a numbered heading, and if the event-line pattern matches it the
description is nonempty (so the greedy `\s*` cannot swallow the newline)
and consumes the whole line. -/
def lineOKb (l : Text) : Bool :=
  !l.isEmpty &&
  l.all (fun c => c ≠ '\n') &&
  (match l with | c :: _ => !isWS c | [] => false) &&
  !numDotPrefix l &&
  (match matchEventLine l with
   | some (_, d, r) => !d.isEmpty && r.isEmpty
   | none => true)

/-- The event extracted from one line, as `_extract_timeline` builds it. -/
def lineEvent (l : Text) : Option TimelineEvent :=
  (matchEventLine l).map (fun p => ⟨p.1, strip p.2.1⟩)

theorem joinNL_cons_shape (l : Text) (ls : List Text) :
    ∃ b, joinNL (l :: ls) = l ++ b ∧ nlHead b := by
  cases ls with
  | nil => exact ⟨[], by simp [joinNL], Or.inl rfl⟩
  | cons l2 ls2 =>
    exact ⟨'\n' :: joinNL (l2 :: ls2), rfl, Or.inr ⟨_, rfl⟩⟩

theorem drop_takeWhile_length (p : Char → Bool) (l : Text) :
    l.drop (l.takeWhile p).length = l.dropWhile p := by
  induction l with
  | nil => rfl
  | cons c t ih =>
    by_cases hc : p c = true
    · simp [List.takeWhile_cons_of_pos hc, List.dropWhile_cons_of_pos hc, ih]
    · simp [List.takeWhile_cons_of_neg (by simpa using hc),
        List.dropWhile_cons_of_neg (by simpa using hc)]

theorem tailNumHeading_cons_ne {c : Char} (X : Text) (hc : c ≠ '\n') :
    tailNumHeading (c :: X) = false := by
  unfold tailNumHeading
  split
  next r heq =>
    injection heq with h1 _
    exact absurd h1 hc
  next => rfl

theorem tailNumHeading_cons_nl (r : Text) :
    tailNumHeading ('\n' :: r) =
      (!(r.takeWhile isDigitC).isEmpty &&
        (match r.drop (r.takeWhile isDigitC).length with
         | '.' :: w :: _ => isWS w
         | _ => false)) := rfl

/-- At a line junction, the tail alternative `\n\d+\.\s` of the section
pattern does not fire, provided the following line is not
numbered-heading-shaped. -/
theorem tailNum_junction {l b : Text} (hb : nlHead b)
    (hnum : numDotPrefix l = false) :
    tailNumHeading ('\n' :: (l ++ b)) = false := by
  rw [tailNumHeading_cons_nl]
  by_cases hfull : (l.takeWhile isDigitC).length = l.length
  · -- the whole line is digits: after it comes the junction newline (or
    -- the end), which is neither a dot nor a digit
    have hds : (l ++ b).takeWhile isDigitC = l := by
      rw [List.takeWhile_append, if_pos hfull]
      rcases hb with rfl | ⟨r, rfl⟩
      · simp
      · rw [List.takeWhile_cons_of_neg (by decide), List.append_nil]
    rw [hds, List.drop_left]
    rcases hb with rfl | ⟨r, rfl⟩
    · simp
    · simp
  · -- the digit run breaks inside the line at a non-digit character; the
    -- dot-then-whitespace test happens inside the line (plus possibly the
    -- junction newline), and `numDotPrefix` rules it out
    have hds : (l ++ b).takeWhile isDigitC = l.takeWhile isDigitC := by
      rw [List.takeWhile_append, if_neg hfull]
    rw [hds]
    have hdec : l.takeWhile isDigitC ++ l.dropWhile isDigitC = l :=
      List.takeWhile_append_dropWhile isDigitC l
    have hdrop : (l ++ b).drop (l.takeWhile isDigitC).length =
        l.dropWhile isDigitC ++ b := by
      rw [show l ++ b = l.takeWhile isDigitC ++ (l.dropWhile isDigitC ++ b)
            from by rw [← List.append_assoc, hdec],
          List.drop_left]
    rw [hdrop]
    unfold numDotPrefix at hnum
    dsimp only at hnum
    rw [drop_takeWhile_length] at hnum
    split
    next w tail heq =>
      cases hR : l.dropWhile isDigitC with
      | nil =>
        rw [hR, List.append_nil] at hdec
        exact absurd (by rw [hdec]) hfull
      | cons m t =>
        rw [hR, List.cons_append] at heq
        injection heq with h1 h2
        subst h1
        rw [hR] at hnum
        cases t with
        | nil =>
          have hnum2 : (!(l.takeWhile isDigitC).isEmpty && true) = false := hnum
          rcases hb with rfl | ⟨r, hbr⟩
          · exact absurd h2 (by simp)
          · subst hbr
            simp only [List.nil_append] at h2
            injection h2 with hw _
            subst hw
            exact hnum2
        | cons w2 t2 =>
          have hnum2 : (!(l.takeWhile isDigitC).isEmpty && isWS w2) = false := hnum
          simp only [List.cons_append] at h2
          injection h2 with hw _
          subst hw
          exact hnum2
    next => simp

theorem groupOf_cons (c : Char) (t : Text) :
    groupOf (c :: t) =
      if tailNumHeading (c :: t) then []
      else if c = '\n' ∧ t = [] then [] else c :: groupOf t := rfl

theorem groupOf_append_line (l rest : Text)
    (hl : ∀ c ∈ l, c ≠ '\n')
    (hrest : groupOf rest = rest) :
    groupOf (l ++ rest) = l ++ rest := by
  induction l with
  | nil => simpa using hrest
  | cons c t ih =>
    have hc : c ≠ '\n' := hl c (by simp)
    have ht : ∀ x ∈ t, x ≠ '\n' := fun x hx => hl x (by simp [hx])
    rw [List.cons_append, groupOf_cons,
        if_neg (by rw [tailNumHeading_cons_ne _ hc]; simp),
        if_neg (by simp [hc]),
        ih ht]

/-- The lazy group `(.*?)(?:\n\d+\.\s|$)` captures the glued lines whole
when no line is numbered-heading-shaped and no line has inner newlines. -/
theorem groupOf_joinNL (lines : List Text)
    (H : ∀ l ∈ lines, l ≠ [] ∧ (∀ c ∈ l, c ≠ '\n') ∧ numDotPrefix l = false) :
    groupOf (joinNL lines) = joinNL lines := by
  induction lines with
  | nil => rfl
  | cons l ls ih =>
    obtain ⟨hne, hnl, hnum⟩ := H l (by simp)
    cases ls with
    | nil =>
      have := groupOf_append_line l [] hnl rfl
      simpa using this
    | cons l2 ls2 =>
      have Hts : ∀ x ∈ l2 :: ls2,
          x ≠ [] ∧ (∀ c ∈ x, c ≠ '\n') ∧ numDotPrefix x = false :=
        fun x hx => H x (by simp [hx])
      obtain ⟨hne2, hnl2, hnum2⟩ := H l2 (by simp)
      obtain ⟨b, hshape, hb⟩ := joinNL_cons_shape l2 ls2
      have htn : tailNumHeading ('\n' :: joinNL (l2 :: ls2)) = false := by
        rw [hshape]; exact tailNum_junction hb hnum2
      have hne3 : joinNL (l2 :: ls2) ≠ [] := by
        rw [hshape]
        intro hcon
        exact hne2 (List.append_eq_nil.mp hcon).1
      have hrest : groupOf ('\n' :: joinNL (l2 :: ls2)) =
          '\n' :: joinNL (l2 :: ls2) := by
        rw [groupOf_cons, if_neg (by simp [htn]), if_neg (by simp [hne3]),
            ih Hts]
      exact groupOf_append_line l ('\n' :: joinNL (l2 :: ls2)) hnl hrest

theorem headerMatch_hit (rest : Text) :
    headerMatch ('2' :: '\\' :: '.' :: rest) =
      (if sectionLit.isPrefixOf rest then
        (if ((rest.drop sectionLit.length).takeWhile isWS).contains '\n' then
          some (afterLastNL ((rest.drop sectionLit.length).takeWhile isWS) ++
            (rest.drop sectionLit.length).drop
              ((rest.drop sectionLit.length).takeWhile isWS).length)
         else none)
      else none) := rfl

/-- On a report of the literal (code-matchable) heading followed by glued
well-behaved lines, the section search captures exactly the glued lines. -/
theorem findSection_hdr (lines : List Text)
    (H : ∀ l ∈ lines, l ≠ [] ∧ (∀ c ∈ l, c ≠ '\n') ∧
         (∀ c t, l = c :: t → isWS c = false) ∧ numDotPrefix l = false) :
    findSection (txt "2\\. Timeline of Events:\n" ++ joinNL lines) =
      some (joinNL lines) := by
  have hform : txt "2\\. Timeline of Events:\n" ++ joinNL lines =
      '2' :: '\\' :: '.' :: (sectionLit ++ ('\n' :: joinNL lines)) := rfl
  have hbody0 : (joinNL lines).takeWhile isWS = [] := by
    cases lines with
    | nil => rfl
    | cons l ls =>
      obtain ⟨b, hshape, hb⟩ := joinNL_cons_shape l ls
      obtain ⟨hne, _, hhead, _⟩ := H l (by simp)
      rw [hshape]
      cases l with
      | nil => exact absurd rfl hne
      | cons c t =>
        rw [List.cons_append,
            List.takeWhile_cons_of_neg (by simp [hhead c t rfl])]
  have hpre : sectionLit.isPrefixOf (sectionLit ++ ('\n' :: joinNL lines)) =
      true := by
    rw [List.isPrefixOf_iff_prefix]
    exact List.prefix_append _ _
  have hm : headerMatch
      ('2' :: '\\' :: '.' :: (sectionLit ++ ('\n' :: joinNL lines))) =
      some (joinNL lines) := by
    rw [headerMatch_hit, if_pos hpre, List.drop_left,
        List.takeWhile_cons_of_pos (by decide), hbody0,
        if_pos (by decide)]
    simp [afterLastNL]
  rw [hform]
  simp only [findSection]
  rw [hm]
  exact congrArg some (groupOf_joinNL lines
    (fun l hl => ⟨(H l hl).1, (H l hl).2.1, (H l hl).2.2.2⟩))

theorem findEventsAux_nil {f : Nat} (hf : 0 < f) : findEventsAux f [] = [] := by
  cases f with
  | zero => omega
  | succ f2 => rfl

theorem lineOKb_parts {l : Text} (h : lineOKb l = true) :
    l ≠ [] ∧ (∀ c ∈ l, c ≠ '\n') ∧
      (∀ tt dd rr, matchEventLine l = some (tt, dd, rr) →
        dd ≠ [] ∧ rr = []) := by
  unfold lineOKb at h
  simp only [Bool.and_eq_true] at h
  obtain ⟨⟨⟨⟨h1, h2⟩, h3⟩, h4⟩, h5⟩ := h
  refine ⟨by simpa using h1, by simpa using h2, ?_⟩
  intro tt dd rr hm
  rw [hm] at h5
  dsimp only at h5
  simp only [Bool.and_eq_true] at h5
  exact ⟨by simpa using h5.1, by simpa using h5.2⟩

/-- The MULTILINE `findall` over glued well-behaved lines is the per-line
matcher applied line by line. -/
theorem findEventsAux_join (lines : List Text) : ∀ (fuel : Nat),
    (joinNL lines).length < fuel →
    (∀ l ∈ lines, lineOKb l = true) →
    findEventsAux fuel (joinNL lines) =
      lines.filterMap
        (fun l => (matchEventLine l).map (fun p => (p.1, p.2.1))) := by
  induction lines with
  | nil =>
    intro fuel hf _
    rw [show joinNL [] = [] from rfl] at hf ⊢
    rw [findEventsAux_nil (by omega)]
    rfl
  | cons l ls ih =>
    intro fuel hf H
    obtain ⟨hne, hnl, hmel⟩ := lineOKb_parts (H l (by simp))
    have hlp : 1 ≤ l.length := List.length_pos.mpr hne
    cases ls with
    | nil =>
      rw [show joinNL [l] = l from rfl] at hf ⊢
      cases fuel with
      | zero => omega
      | succ f =>
        have hf1 : 0 < f := by omega
        cases hm : matchEventLine l with
        | some p =>
          obtain ⟨tt, dd, rr⟩ := p
          obtain ⟨hdd, hrr⟩ := hmel tt dd rr hm
          subst hrr
          simp only [findEventsAux, hm]
          rw [show dropThroughNL [] = [] from rfl, findEventsAux_nil hf1]
          simp [hm]
        | none =>
          simp only [findEventsAux, hm]
          cases l with
          | nil => exact absurd rfl hne
          | cons c t =>
            dsimp only
            have hdtn : dropThroughNL (c :: t) = [] := by
              unfold dropThroughNL
              rw [List.dropWhile_eq_nil_iff.mpr
                (fun x hx => by simp [hnl x hx])]
              rfl
            rw [hdtn, findEventsAux_nil hf1]
            simp [hm]
    | cons l2 ls2 =>
      rw [show joinNL (l :: l2 :: ls2) = l ++ '\n' :: joinNL (l2 :: ls2)
        from rfl] at hf ⊢
      cases fuel with
      | zero => simp at hf
      | succ f =>
        have hfX : (joinNL (l2 :: ls2)).length < f := by
          rw [List.length_append, List.length_cons] at hf
          omega
        have hnlh : nlHead ('\n' :: joinNL (l2 :: ls2)) := Or.inr ⟨_, rfl⟩
        have Hts : ∀ x ∈ l2 :: ls2, lineOKb x = true :=
          fun x hx => H x (by simp [hx])
        cases hm : matchEventLine l with
        | some p =>
          obtain ⟨tt, dd, rr⟩ := p
          obtain ⟨hdd, hrr⟩ := hmel tt dd rr hm
          subst hrr
          have hm2 := matchEventLine_append ('\n' :: joinNL (l2 :: ls2))
            hm hdd hnlh
          simp only [findEventsAux, hm2]
          have hdtn : dropThroughNL ('\n' :: joinNL (l2 :: ls2)) =
              joinNL (l2 :: ls2) := by
            unfold dropThroughNL
            rw [List.dropWhile_cons_of_neg (by simp)]
            rfl
          rw [hdtn, ih f hfX Hts]
          simp [hm]
        | none =>
          have hm2 := matchEventLine_append_none hm hnlh
          simp only [findEventsAux, hm2]
          cases l with
          | nil => exact absurd rfl hne
          | cons c t =>
            simp only [List.cons_append]
            have hdtn : dropThroughNL
                (c :: (t ++ '\n' :: joinNL (l2 :: ls2))) =
                joinNL (l2 :: ls2) := by
              unfold dropThroughNL
              rw [show c :: (t ++ '\n' :: joinNL (l2 :: ls2)) =
                    (c :: t) ++ '\n' :: joinNL (l2 :: ls2) from rfl,
                  List.dropWhile_append,
                  if_pos (by
                    rw [List.dropWhile_eq_nil_iff.mpr
                      (fun x hx => by simp [hnl x hx])]
                    rfl),
                  List.dropWhile_cons_of_neg (by simp)]
              rfl
            rw [hdtn, ih f hfX Hts]
            simp [hm]

theorem dropWhile_idem (p : Char → Bool) (l : Text) :
    (l.dropWhile p).dropWhile p = l.dropWhile p := by
  induction l with
  | nil => rfl
  | cons x xs ih =>
    by_cases hx : p x = true
    · rw [List.dropWhile_cons_of_pos hx, ih]
    · rw [List.dropWhile_cons_of_neg (by simpa using hx),
          List.dropWhile_cons_of_neg (by simpa using hx)]

theorem strip_dropWhile (l : Text) : strip (l.dropWhile isWS) = strip l := by
  unfold strip
  rw [dropWhile_idem]

/-- The fixed `\d{4}-\d{2}-\d{2} \d{2}:\d{2}` prefix consumes a formatted
date-hour-minute exactly. -/
theorem chompDateHM_fmt (y mo d h mi : Nat) (rest : Text) :
    chompDateHM (fmtDate y mo d ++ ' ' :: (pad2 h ++ ':' :: (pad2 mi ++ rest))) =
      some (fmtDate y mo d ++ ' ' :: (pad2 h ++ ':' :: pad2 mi), rest) := by
  unfold chompDateHM fmtDate
  simp only [List.append_assoc, List.cons_append, List.nil_append]
  simp only [chompDigits_pad4, chompDigits_pad2, chompChar_self,
    Option.some_bind, Option.map_some']

theorem rangeCands_nodash {c : Char} (t : Text) (hc : c ≠ '-') :
    rangeCands (c :: t) = [([], c :: t)] := by
  unfold rangeCands
  rw [show chompChar '-' (c :: t) = none from by simp [chompChar, hc]]

theorem rangeCands_withSec (h2 mi2 s2 : Nat) (desc : Text) :
    rangeCands ('-' :: (pad2 h2 ++ ':' :: (pad2 mi2 ++
        (':' :: (pad2 s2 ++ ':' :: desc))))) =
      (('-' :: pad2 h2 ++ ':' :: pad2 mi2) ++ ':' :: pad2 s2, ':' :: desc) ::
        [('-' :: pad2 h2 ++ ':' :: pad2 mi2,
          ':' :: (pad2 s2 ++ ':' :: desc)),
         ([], '-' :: (pad2 h2 ++ ':' :: (pad2 mi2 ++
            (':' :: (pad2 s2 ++ ':' :: desc)))))] := by
  unfold rangeCands
  rw [chompChar_self]
  dsimp only
  rw [chompDigits_pad2]
  dsimp only
  rw [chompChar_self]
  dsimp only
  rw [chompDigits_pad2]
  dsimp only
  rw [trySec_pad2]
  rfl

theorem rangeCands_noSec (h2 mi2 : Nat) {desc : Text}
    (hC : trySec (':' :: desc) = none) :
    rangeCands ('-' :: (pad2 h2 ++ ':' :: (pad2 mi2 ++ ':' :: desc))) =
      [('-' :: pad2 h2 ++ ':' :: pad2 mi2, ':' :: desc),
       ([], '-' :: (pad2 h2 ++ ':' :: (pad2 mi2 ++ ':' :: desc)))] := by
  unfold rangeCands
  rw [chompChar_self]
  dsimp only
  rw [chompDigits_pad2]
  dsimp only
  rw [chompChar_self]
  dsimp only
  rw [chompDigits_pad2]
  dsimp only
  rw [hC]
  rfl

/-- When the seconds group takes and the range group's first viable
candidate leaves `:` + description, that combination wins. -/
theorem eventCands_hit_sec {s1 st r1 rext : Text}
    {tail : List (Text × Text)} {desc : Text}
    (h1 : trySec s1 = some (st, r1))
    (h2 : rangeCands r1 = (rext, ':' :: desc) :: tail) :
    (eventCands s1).findSome?
      (fun p => (chompChar ':' p.2).map (fun r => (p.1, r))) =
      some (st ++ rext, desc) := by
  unfold eventCands secCands
  rw [h1]
  dsimp only
  rw [List.cons_append, List.nil_append, List.flatMap_cons]
  dsimp only
  rw [h2, List.map_cons, List.cons_append, List.findSome?_cons]
  rw [chompChar_self]
  rfl

/-- When the seconds group cannot take and the range group's first viable
candidate leaves `:` + description. -/
theorem eventCands_hit_nosec {s1 rext : Text}
    {tail : List (Text × Text)} {desc : Text}
    (h1 : trySec s1 = none)
    (h2 : rangeCands s1 = (rext, ':' :: desc) :: tail) :
    (eventCands s1).findSome?
      (fun p => (chompChar ':' p.2).map (fun r => (p.1, r))) =
      some (rext, desc) := by
  unfold eventCands secCands
  rw [h1]
  dsimp only
  rw [List.nil_append, List.flatMap_cons]
  dsimp only
  rw [h2, List.map_cons, List.cons_append, List.findSome?_cons]
  rw [chompChar_self]
  simp

/-- Assemble a full event-line match from the prefix match, the winning
backtracking candidate, and a newline-free description. -/
theorem matchEventLine_tail {s T0 s1 ext desc : Text}
    (h1 : chompDateHM s = some (T0, s1))
    (h2 : (eventCands s1).findSome?
      (fun p => (chompChar ':' p.2).map (fun r => (p.1, r))) =
      some (ext, desc))
    (hdesc1 : ∀ c ∈ desc, c ≠ '\n')
    (hdesc2 : desc.dropWhile isWS ≠ []) :
    matchEventLine s = some (T0 ++ ext, desc.dropWhile isWS, []) := by
  unfold matchEventLine
  rw [h1]
  dsimp only
  rw [show ((secCands s1).flatMap
        (fun p => (rangeCands p.2).map (fun q => (p.1 ++ q.1, q.2)))) =
      eventCands s1 from rfl, h2]
  dsimp only
  have hall : ∀ c ∈ desc.dropWhile isWS, (c ≠ '\n' : Bool) = true := by
    intro c hc
    have : c ∈ desc := (List.dropWhile_sublist _).subset hc
    simp [hdesc1 c this]
  rw [List.takeWhile_eq_self_iff.mpr hall]
  rw [List.drop_length]

/-- Event line `YYYY-MM-DD HH:MM:SS: desc`. -/
theorem lineEvent_sec_norange (y mo d h mi s : Nat) (desc : Text)
    (hd1 : ∀ c ∈ desc, c ≠ '\n') (hd2 : desc.dropWhile isWS ≠ []) :
    lineEvent (fmtDT y mo d h mi s true ++ ':' :: desc) =
      some ⟨fmtDT y mo d h mi s true, strip desc⟩ := by
  have hshape : fmtDT y mo d h mi s true ++ ':' :: desc =
      fmtDate y mo d ++ ' ' :: (pad2 h ++ ':' :: (pad2 mi ++
        (':' :: (pad2 s ++ ':' :: desc)))) := by
    unfold fmtDT fmtHMS
    simp [List.append_assoc]
  have hf := eventCands_hit_sec (trySec_pad2 s (':' :: desc))
    (rangeCands_nodash desc (by decide))
  have hm : matchEventLine (fmtDT y mo d h mi s true ++ ':' :: desc) =
      some ((fmtDate y mo d ++ ' ' :: (pad2 h ++ ':' :: pad2 mi)) ++
        (':' :: pad2 s ++ []), desc.dropWhile isWS, []) := by
    rw [hshape]
    exact matchEventLine_tail
      (chompDateHM_fmt y mo d h mi (':' :: (pad2 s ++ ':' :: desc)))
      hf hd1 hd2
  unfold lineEvent
  rw [hm, Option.map_some', strip_dropWhile]
  refine congrArg some ?_
  unfold fmtDT fmtHMS
  simp [List.append_assoc]

/-- Event line `YYYY-MM-DD HH:MM:SS-HH:MM:SS: desc` (range with seconds). -/
theorem lineEvent_sec_rangeSec (y mo d h mi s h2 mi2 s2 : Nat) (desc : Text)
    (hd1 : ∀ c ∈ desc, c ≠ '\n') (hd2 : desc.dropWhile isWS ≠ []) :
    lineEvent (fmtDT y mo d h mi s true ++ '-' ::
        (fmtHMS h2 mi2 s2 true ++ ':' :: desc)) =
      some ⟨fmtDT y mo d h mi s true ++ '-' :: fmtHMS h2 mi2 s2 true,
            strip desc⟩ := by
  have hshape : fmtDT y mo d h mi s true ++ '-' ::
        (fmtHMS h2 mi2 s2 true ++ ':' :: desc) =
      fmtDate y mo d ++ ' ' :: (pad2 h ++ ':' :: (pad2 mi ++
        (':' :: (pad2 s ++ ('-' :: (pad2 h2 ++ ':' :: (pad2 mi2 ++
          (':' :: (pad2 s2 ++ ':' :: desc))))))))) := by
    unfold fmtDT fmtHMS
    simp [List.append_assoc]
  have hf := eventCands_hit_sec
    (trySec_pad2 s ('-' :: (pad2 h2 ++ ':' :: (pad2 mi2 ++
      (':' :: (pad2 s2 ++ ':' :: desc))))))
    (rangeCands_withSec h2 mi2 s2 desc)
  have hm : matchEventLine (fmtDT y mo d h mi s true ++ '-' ::
        (fmtHMS h2 mi2 s2 true ++ ':' :: desc)) =
      some ((fmtDate y mo d ++ ' ' :: (pad2 h ++ ':' :: pad2 mi)) ++
        (':' :: pad2 s ++ (('-' :: pad2 h2 ++ ':' :: pad2 mi2) ++
          ':' :: pad2 s2)), desc.dropWhile isWS, []) := by
    rw [hshape]
    exact matchEventLine_tail
      (chompDateHM_fmt y mo d h mi (':' :: (pad2 s ++ ('-' :: (pad2 h2 ++
        ':' :: (pad2 mi2 ++ (':' :: (pad2 s2 ++ ':' :: desc))))))))
      hf hd1 hd2
  unfold lineEvent
  rw [hm, Option.map_some', strip_dropWhile]
  refine congrArg some ?_
  unfold fmtDT fmtHMS
  simp [List.append_assoc]

/-- Event line `YYYY-MM-DD HH:MM:SS-HH:MM: desc` (range without seconds);
the description must not begin with two digits, otherwise the greedy
optional seconds group of the range binds into it. -/
theorem lineEvent_sec_rangeNoSec (y mo d h mi s h2 mi2 : Nat) (desc : Text)
    (hC : trySec (':' :: desc) = none)
    (hd1 : ∀ c ∈ desc, c ≠ '\n') (hd2 : desc.dropWhile isWS ≠ []) :
    lineEvent (fmtDT y mo d h mi s true ++ '-' ::
        (fmtHMS h2 mi2 0 false ++ ':' :: desc)) =
      some ⟨fmtDT y mo d h mi s true ++ '-' :: fmtHMS h2 mi2 0 false,
            strip desc⟩ := by
  have hshape : fmtDT y mo d h mi s true ++ '-' ::
        (fmtHMS h2 mi2 0 false ++ ':' :: desc) =
      fmtDate y mo d ++ ' ' :: (pad2 h ++ ':' :: (pad2 mi ++
        (':' :: (pad2 s ++ ('-' :: (pad2 h2 ++ ':' :: (pad2 mi2 ++
          ':' :: desc))))))) := by
    unfold fmtDT fmtHMS
    simp [List.append_assoc]
  have hf := eventCands_hit_sec
    (trySec_pad2 s ('-' :: (pad2 h2 ++ ':' :: (pad2 mi2 ++ ':' :: desc))))
    (rangeCands_noSec h2 mi2 hC)
  have hm : matchEventLine (fmtDT y mo d h mi s true ++ '-' ::
        (fmtHMS h2 mi2 0 false ++ ':' :: desc)) =
      some ((fmtDate y mo d ++ ' ' :: (pad2 h ++ ':' :: pad2 mi)) ++
        (':' :: pad2 s ++ ('-' :: pad2 h2 ++ ':' :: pad2 mi2)),
        desc.dropWhile isWS, []) := by
    rw [hshape]
    exact matchEventLine_tail
      (chompDateHM_fmt y mo d h mi (':' :: (pad2 s ++ ('-' :: (pad2 h2 ++
        ':' :: (pad2 mi2 ++ ':' :: desc))))))
      hf hd1 hd2
  unfold lineEvent
  rw [hm, Option.map_some', strip_dropWhile]
  refine congrArg some ?_
  unfold fmtDT fmtHMS
  simp [List.append_assoc]

/-- Event line `YYYY-MM-DD HH:MM: desc` (no seconds, no range); the
description must not begin with two digits. -/
theorem lineEvent_noSec (y mo d h mi : Nat) (desc : Text)
    (hD : trySec (':' :: desc) = none)
    (hd1 : ∀ c ∈ desc, c ≠ '\n') (hd2 : desc.dropWhile isWS ≠ []) :
    lineEvent (fmtDT y mo d h mi 0 false ++ ':' :: desc) =
      some ⟨fmtDT y mo d h mi 0 false, strip desc⟩ := by
  have hshape : fmtDT y mo d h mi 0 false ++ ':' :: desc =
      fmtDate y mo d ++ ' ' :: (pad2 h ++ ':' :: (pad2 mi ++ ':' :: desc)) := by
    unfold fmtDT fmtHMS
    simp [List.append_assoc]
  have hf := eventCands_hit_nosec hD (rangeCands_nodash desc (by decide))
  have hm : matchEventLine (fmtDT y mo d h mi 0 false ++ ':' :: desc) =
      some ((fmtDate y mo d ++ ' ' :: (pad2 h ++ ':' :: pad2 mi)) ++ [],
        desc.dropWhile isWS, []) := by
    rw [hshape]
    exact matchEventLine_tail (chompDateHM_fmt y mo d h mi (':' :: desc))
      hf hd1 hd2
  unfold lineEvent
  rw [hm, Option.map_some', strip_dropWhile]
  refine congrArg some ?_
  unfold fmtDT fmtHMS
  simp [List.append_assoc]

theorem lineOKb_parts2 {l : Text} (h : lineOKb l = true) :
    (∀ c t, l = c :: t → isWS c = false) ∧ numDotPrefix l = false := by
  unfold lineOKb at h
  simp only [Bool.and_eq_true] at h
  obtain ⟨⟨⟨⟨h1, h2⟩, h3⟩, h4⟩, h5⟩ := h
  constructor
  · intro c t hl
    subst hl
    dsimp only at h3
    simpa using h3
  · simpa using h4

/-- C7 amended — the fallback extractor reads a (code-matchable) timeline
section line by line, but the per-line grammar is narrower and greedier
than claimed.  For a report built from the literal heading and
well-behaved lines (nonempty, newline-free, not whitespace- or
numbered-heading-led, and fully consumed by the event pattern with a
nonempty description when it matches), the extraction is exactly the
per-line matcher applied to each line, producing for each matching line
one entry whose `time` is the full matched timestamp text and whose
`event` is the whitespace-stripped description.  In particular a line
`YYYY-MM-DD HH:MM:SS: desc` yields time `YYYY-MM-DD HH:MM:SS`; a line with
a time-of-day range `-HH:MM:SS` after the timestamp yields the timestamp
plus the range; a range or timestamp without seconds also works provided
the description does not itself begin with two digits (the greedy optional
seconds group would bind into it — and a *full-timestamp* range
`-YYYY-MM-DD HH:MM:SS` is not in the grammar at all, see the
counterexample). -/
theorem c7_line_grammar_and_extraction (lines : List Text)
    (H : ∀ l ∈ lines, lineOKb l = true) :
    extract_timeline (txt "2\\. Timeline of Events:\n" ++ joinNL lines) =
      lines.filterMap lineEvent ∧
    (∀ y mo d h mi s : Nat, ∀ desc : Text,
      (∀ c ∈ desc, c ≠ '\n') → desc.dropWhile isWS ≠ [] →
      lineEvent (fmtDT y mo d h mi s true ++ ':' :: desc) =
        some ⟨fmtDT y mo d h mi s true, strip desc⟩) ∧
    (∀ y mo d h mi s h2 mi2 s2 : Nat, ∀ desc : Text,
      (∀ c ∈ desc, c ≠ '\n') → desc.dropWhile isWS ≠ [] →
      lineEvent (fmtDT y mo d h mi s true ++ '-' ::
          (fmtHMS h2 mi2 s2 true ++ ':' :: desc)) =
        some ⟨fmtDT y mo d h mi s true ++ '-' :: fmtHMS h2 mi2 s2 true,
              strip desc⟩) ∧
    (∀ y mo d h mi s h2 mi2 : Nat, ∀ desc : Text,
      trySec (':' :: desc) = none →
      (∀ c ∈ desc, c ≠ '\n') → desc.dropWhile isWS ≠ [] →
      lineEvent (fmtDT y mo d h mi s true ++ '-' ::
          (fmtHMS h2 mi2 0 false ++ ':' :: desc)) =
        some ⟨fmtDT y mo d h mi s true ++ '-' :: fmtHMS h2 mi2 0 false,
              strip desc⟩) ∧
    (∀ y mo d h mi : Nat, ∀ desc : Text,
      trySec (':' :: desc) = none →
      (∀ c ∈ desc, c ≠ '\n') → desc.dropWhile isWS ≠ [] →
      lineEvent (fmtDT y mo d h mi 0 false ++ ':' :: desc) =
        some ⟨fmtDT y mo d h mi 0 false, strip desc⟩) := by
  have H4 : ∀ l ∈ lines, l ≠ [] ∧ (∀ c ∈ l, c ≠ '\n') ∧
      (∀ c t, l = c :: t → isWS c = false) ∧ numDotPrefix l = false := by
    intro l hl
    obtain ⟨p1, p2, _⟩ := lineOKb_parts (H l hl)
    obtain ⟨p3, p4⟩ := lineOKb_parts2 (H l hl)
    exact ⟨p1, p2, p3, p4⟩
  refine ⟨?_, lineEvent_sec_norange, lineEvent_sec_rangeSec,
    lineEvent_sec_rangeNoSec, lineEvent_noSec⟩
  unfold extract_timeline
  rw [findSection_hdr lines H4]
  dsimp only
  unfold findEvents
  rw [findEventsAux_join lines ((joinNL lines).length + 1) (by omega) H]
  rw [List.map_filterMap]
  have hfn : (fun l => ((matchEventLine l).map
      (fun p => (p.1, p.2.1))).map
      (fun p => (⟨p.1, strip p.2⟩ : TimelineEvent))) = lineEvent := by
    funext l
    unfold lineEvent
    rw [Option.map_map]
    rfl
  rw [hfn]

theorem c7_witness :
    extract_timeline (txt "2\\. Timeline of Events:\n" ++
        joinNL [txt "2024-01-15 14:05:00: high memory",
                txt "2024-01-15 15:00-16:00: mitigation"]) =
      [⟨txt "2024-01-15 14:05:00", txt "high memory"⟩,
       ⟨txt "2024-01-15 15:00-16:00", txt "mitigation"⟩] := by
  have h := (c7_line_grammar_and_extraction
    [txt "2024-01-15 14:05:00: high memory",
     txt "2024-01-15 15:00-16:00: mitigation"] (by decide)).1
  rw [h]
  decide
